import Mathlib

/-!
Landmark utilities of the planner (`src/search/landmarks/util.cc`)

A shallow embedding of the relaxed-reachability test `possibly_reaches_lm`,
of the name resolver `find_facts` and of the textual landmark-graph codec
(`dump_landmark_graph`, `read_node`, `read_landmark_graph`), with the
properties proved about them.

Conventions of the embedding.
* `int` values are `Int`; `size_t` values are `Nat`, reduced modulo `2 ^ 64`
  wherever the source adds or subtracts them.
* `std::string` is `List Char`; `find` returns `npos = 2 ^ 64 - 1` when there
  is no occurrence, `substr` throws `std::out_of_range` when the start
  position lies beyond the end of the string.
* An access outside a `std::vector`, a failed `assert` and a thrown exception
  are made explicit as the `Fault` carried by `Except`.
* The classes `Landmark`, `LandmarkNode` and `LandmarkGraph` are declared in
  headers that are not among the sources at hand; their data is modelled
  after the data model of the specification, and the graph queries used by
  `read_node` after its section on the graph.
-/

namespace landmarks

/-! ## Data model -/

/-- A fact is a pair of a variable id and a value id (`FactPair`). -/
structure FactPair where
  var : Int
  value : Int
deriving DecidableEq, Repr

/-- An effect of an operator: the fact it makes true and the facts it is
conditioned on (`EffectProxy`). -/
structure Effect where
  fact : FactPair
  conditions : List FactPair
deriving DecidableEq, Repr

/-- An operator or axiom of the task (`OperatorProxy`). -/
structure Operator where
  preconditions : List FactPair
  effects : List Effect
  is_axiom_flag : Bool
  id : Int
deriving DecidableEq, Repr

/-- A landmark: its facts and the two combination flags, plus the goal flag
(`Landmark`, constructed as `Landmark(facts, disjunctive, conjunctive)`). -/
structure Landmark where
  facts : List FactPair
  disjunctive : Bool
  conjunctive : Bool
  is_true_in_goal : Bool
deriving DecidableEq, Repr

/-- What can go wrong while the code runs: a failed `assert`, an index outside
a vector, or the `std::out_of_range` that `substr` throws. -/
inductive Fault where
  | assertion
  | vector_index
  | out_of_range
deriving DecidableEq, Repr

instance {ε α : Type} [DecidableEq ε] [DecidableEq α] : DecidableEq (Except ε α)
  | .ok a, .ok b =>
    if h : a = b then isTrue (by rw [h]) else isFalse (fun hab => h (by cases hab; rfl))
  | .ok _, .error _ => isFalse (fun h => by cases h)
  | .error _, .ok _ => isFalse (fun h => by cases h)
  | .error a, .error b =>
    if h : a = b then isTrue (by rw [h]) else isFalse (fun hab => h (by cases hab; rfl))

/-! ## Relaxed reachability -/

/-- The access `reached[var][value]` with both indices checked. -/
def reached_at (reached : List (List Bool)) (f : FactPair) : Except Fault Bool :=
  if 0 ≤ f.var ∧ 0 ≤ f.value then
    match reached.get? f.var.toNat with
    | some row =>
      match row.get? f.value.toNat with
      | some b => .ok b
      | none => .error .vector_index
    | none => .error .vector_index
  else .error .vector_index

/-- The access `reached[var]`, a row of the table. -/
def row_at (reached : List (List Bool)) (var : Int) : Except Fault (List Bool) :=
  if 0 ≤ var then
    match reached.get? var.toNat with
    | some row => .ok row
    | none => .error .vector_index
  else .error .vector_index

/-- The loop of `_possibly_fires`: false at the first condition that is not
reached, true when the conditions are exhausted. -/
def _possibly_fires : List FactPair → List (List Bool) → Except Fault Bool
  | [], _ => .ok true
  | cond :: rest, reached =>
    match reached_at reached cond with
    | .error e => .error e
    | .ok false => .ok false
    | .ok true => _possibly_fires rest reached

/-- The precondition loop of `possibly_reaches_lm` (lines 46-48): `false` as
soon as a precondition is not reached. -/
def preconditions_reached : List FactPair → List (List Bool) → Except Fault Bool
  | [], _ => .ok true
  | pre :: rest, reached =>
    match reached_at reached pre with
    | .error e => .error e
    | .ok false => .ok false
    | .ok true => preconditions_reached rest reached

/-- The inner loop over the landmark's facts for one effect (lines 55-61):
at the first fact equal to the effect's fact the fire check decides, `true`
meaning `return true` and `false` meaning `break`. -/
def match_effect (effect : Effect) (reached : List (List Bool)) :
    List FactPair → Except Fault Bool
  | [] => .ok false
  | fact :: rest =>
    if effect.fact = fact then _possibly_fires effect.conditions reached
    else match_effect effect reached rest

/-- The loop over the effects (lines 52-62), with its assertion. -/
def scan_effects : List Effect → List (List Bool) → List FactPair → Except Fault Bool
  | [], _, _ => .ok false
  | effect :: rest, reached, facts =>
    match row_at reached effect.fact.var with
    | .error e => .error e
    | .ok row =>
      if row.isEmpty then .error .assertion
      else
        match match_effect effect reached facts with
        | .error e => .error e
        | .ok true => .ok true
        | .ok false => scan_effects rest reached facts

/-- Whether operator `op` can possibly make `landmark` true in the relaxed
task described by `reached`. -/
def possibly_reaches_lm (op : Operator) (reached : List (List Bool))
    (landmark : Landmark) : Except Fault Bool :=
  if reached.isEmpty then .error .assertion
  else
    match preconditions_reached op.preconditions reached with
    | .error e => .error e
    | .ok false => .ok false
    | .ok true => scan_effects op.effects reached landmark.facts

/-- The table has an entry for the fact. -/
def in_table (reached : List (List Bool)) (f : FactPair) : Bool :=
  match reached_at reached f with
  | .ok _ => true
  | .error _ => false

/-- The table has an entry for the fact and the entry is set. -/
def is_reached (reached : List (List Bool)) (f : FactPair) : Bool :=
  match reached_at reached f with
  | .ok b => b
  | .error _ => false

/-- The table has an entry for every fact the operator mentions: its
preconditions, the facts of its effects and their conditions. -/
def covers (reached : List (List Bool)) (op : Operator) : Bool :=
  op.preconditions.all (in_table reached) &&
  op.effects.all (fun e => in_table reached e.fact && e.conditions.all (in_table reached))

/-- Two tables have the same number of rows and rows of the same lengths. -/
def same_shape (r1 r2 : List (List Bool)) : Bool :=
  r1.map List.length == r2.map List.length

/-- Whether an effect both lands on a fact of the landmark and has all its
conditions reached. -/
def fires_on (reached : List (List Bool)) (facts : List FactPair) (e : Effect) : Bool :=
  decide (e.fact ∈ facts) && e.conditions.all (is_reached reached)

/-! ## `std::string` and `size_t` -/

/-- The value `std::string::npos`, the largest `size_t`. -/
def npos : Nat := 18446744073709551615

/-- Addition of two `size_t` values. -/
def sz_add (a b : Nat) : Nat := (a + b) % 18446744073709551616

/-- Subtraction of two `size_t` values, wrapping around below zero. -/
def sz_sub (a b : Nat) : Nat := (a + (18446744073709551616 - b)) % 18446744073709551616

/-- Whether the text starts with `sub`. -/
def starts_with : List Char → List Char → Bool
  | _, [] => true
  | [], _ :: _ => false
  | c :: s, d :: sub => c == d && starts_with s sub

/-- The search of `std::string::find` over the text that begins at index `i`
of the whole string: the first index at which `sub` occurs, or `npos`. -/
def find_at (sub : List Char) : List Char → Nat → Nat
  | [], i => if sub.isEmpty then i else npos
  | c :: s, i => if starts_with (c :: s) sub then i else find_at sub s (i + 1)

/-- The call `s.find(sub, pos)`. -/
def str_find_from (s sub : List Char) (pos : Nat) : Nat :=
  if s.length < pos then npos else find_at sub (s.drop pos) pos

/-- The call `s.find(sub)`. -/
def str_find (s sub : List Char) : Nat := str_find_from s sub 0

/-- The first `n` characters of a text, all of it when it is shorter. -/
def take_chars : List Char → Nat → List Char
  | [], _ => []
  | c :: s, n => if n = 0 then [] else c :: take_chars s (n - 1)

/-- The call `s.substr(pos, n)`: throws `std::out_of_range` when `pos` is
beyond the end of the string, and stops at the end of the string. -/
def str_substr (s : List Char) (pos n : Nat) : Except Fault (List Char) :=
  if s.length < pos then .error .out_of_range else .ok (take_chars (s.drop pos) n)

/-! ## The fact catalog and `find_facts` -/

/-- The catalog of the task: for every variable, the names of its values in
order (`task_proxy.get_variables()[i].get_fact(j).get_name()`); the domain
size of a variable is the number of its names. -/
abbrev Catalog := List (List (List Char))

/-- The text between the first `(` and the first `, ` (line 168). -/
def first_of_two (s : List Char) : Except Fault (List Char) :=
  str_substr s (sz_add (str_find s "(".toList) 1)
    (sz_sub (sz_sub (str_find s ", ".toList) (str_find s "(".toList)) 1)

/-- The text between the first `, ` and the first `)` (line 173). -/
def second_of_two (s : List Char) : Except Fault (List Char) :=
  str_substr s (sz_add (str_find s ", ".toList) 2)
    (sz_sub (sz_sub (str_find s ")".toList) (str_find s ", ".toList)) 2)

/-- The text between the first `(` and the first `)` (line 182). -/
def only_argument (s : List Char) : Except Fault (List Char) :=
  str_substr s (sz_add (str_find s "(".toList) 1)
    (sz_sub (sz_sub (str_find s ")".toList) (str_find s "(".toList)) 1)

/-- The body of the two loops of `find_facts` (lines 163-186) for the catalog
name `tmp` of value `j` of variable `i`, updating `(var, val)`. -/
def find_facts_step (name tmp : List Char) (i j : Nat) (vv : Int × Int) :
    Except Fault (Int × Int) :=
  if str_find name ", ".toList ≠ npos then do
    let a ← first_of_two name
    let b ← first_of_two tmp
    let var : Int := if a = b then (i : Int) else vv.1
    let c ← second_of_two name
    let d ← second_of_two tmp
    let val : Int := if c = d then (j : Int) else vv.2
    pure (var, val)
  else if str_find name "()".toList ≠ 0 ∧ name = tmp then
    pure ((i : Int), (j : Int))
  else do
    let a ← only_argument name
    let b ← only_argument tmp
    pure (if a = b then (i : Int) else vv.1, vv.2)

/-- The inner loop of `find_facts` over the values `j, j + 1, ...` of
variable `i`, whose names are the given list. -/
def find_facts_values (name : List Char) (i : Nat) :
    List (List Char) → Nat → Int × Int → Except Fault (Int × Int)
  | [], _, vv => pure vv
  | tmp :: rest, j, vv => do
    let vv1 ← find_facts_step name tmp i j vv
    find_facts_values name i rest (j + 1) vv1

/-- The outer loop of `find_facts` over the variables `i, i + 1, ...`. -/
def find_facts_vars (name : List Char) :
    Catalog → Nat → Int × Int → Except Fault (Int × Int)
  | [], _, vv => pure vv
  | names :: rest, i, vv => do
    let vv1 ← find_facts_values name i names 0 vv
    find_facts_vars name rest (i + 1) vv1

/-- The resolver `find_facts(task_proxy, name)`: the pair `(var, val)`, each
side `-1` when it was never assigned. -/
def find_facts (catalog : Catalog) (name : List Char) : Except Fault (Int × Int) :=
  find_facts_vars name catalog 0 (-1, -1)

/-- The catalog name of value `d` of variable `v`, when there is one. -/
def fact_name (catalog : Catalog) (v d : Int) : Option (List Char) :=
  if 0 ≤ v ∧ 0 ≤ d then
    match catalog.get? v.toNat with
    | some names => names.get? d.toNat
    | none => none
  else none

/-- A real fact of the catalog: `0 <= var < numberOfVariables` and
`0 <= value < domainSize(var)`. -/
def is_real_fact (catalog : Catalog) (f : FactPair) : Bool :=
  (fact_name catalog f.var f.value).isSome

/-- The entries `(i, j, name)` of one variable `i` in the order the inner loop
of `find_facts` visits them, the first value having index `j`. -/
def value_entries (i : Nat) : List (List Char) → Nat → List (Nat × Nat × List Char)
  | [], _ => []
  | tmp :: rest, j => (i, j, tmp) :: value_entries i rest (j + 1)

/-- The entries of the variables `i, i + 1, ...` in the order the loops of
`find_facts` visit them. -/
def catalog_entries : Catalog → Nat → List (Nat × Nat × List Char)
  | [], _ => []
  | names :: rest, i => value_entries i names 0 ++ catalog_entries rest (i + 1)

/-- All entries `(variable, value, name)` of the catalog in scan order. -/
def entries (catalog : Catalog) : List (Nat × Nat × List Char) :=
  catalog_entries catalog 0

/-- The body of `find_facts` applied along a list of entries. -/
def scan_entries (name : List Char) :
    List (Nat × Nat × List Char) → Int × Int → Except Fault (Int × Int)
  | [], vv => pure vv
  | e :: rest, vv => do
    let vv1 ← find_facts_step name e.2.2 e.1 e.2.1 vv
    scan_entries name rest vv1

/-! ## The landmark graph -/

/-- The kinds of ordering between two landmarks (`EdgeType`). -/
inductive EdgeType where
  | NECESSARY
  | GREEDY_NECESSARY
  | NATURAL
  | REASONABLE
deriving DecidableEq, Repr

/-- A node of the graph: its id, its landmark and its children, each child
given by its id and the type of the edge to it (`LandmarkNode`). -/
structure LandmarkNode where
  id : Int
  landmark : Landmark
  children : List (Int × EdgeType)
deriving DecidableEq, Repr

/-- The graph: its nodes in storage order (`LandmarkGraph`). -/
structure LandmarkGraph where
  nodes : List LandmarkNode
deriving DecidableEq, Repr

/-- Modelled from the spec: the default constructor `LandmarkGraph()`, whose
code is not part of the sources at hand; a graph is created without nodes. -/
def LandmarkGraph.empty : LandmarkGraph := ⟨[]⟩

/-- Modelled from the spec: `LandmarkGraph::add_landmark`, whose code is not
part of the sources at hand. It takes the landmark, assigns the next id and
appends a node to the storage; it never rejects an insert. -/
def add_landmark (graph : LandmarkGraph) (landmark : Landmark) : LandmarkGraph :=
  ⟨graph.nodes ++ [{ id := (graph.nodes.length : Int), landmark := landmark, children := [] }]⟩

/-- A landmark that is neither disjunctive nor conjunctive. -/
def is_simple (landmark : Landmark) : Bool :=
  !landmark.disjunctive && !landmark.conjunctive

/-- Modelled from the spec: `LandmarkGraph::contains_simple_landmark`, whose
code is not part of the sources at hand: true iff a SIMPLE landmark holding
exactly that fact already exists. -/
def contains_simple_landmark (graph : LandmarkGraph) (fact : FactPair) : Bool :=
  graph.nodes.any (fun n => is_simple n.landmark && decide (n.landmark.facts = [fact]))

/-- Modelled from the spec: `LandmarkGraph::contains_landmark`, whose code is
not part of the sources at hand: true iff that fact occurs in any landmark of
any combination kind. -/
def contains_landmark (graph : LandmarkGraph) (fact : FactPair) : Bool :=
  graph.nodes.any (fun n => decide (fact ∈ n.landmark.facts))

/-- Two lists of facts hold the same set of facts. -/
def same_fact_set (a b : List FactPair) : Bool :=
  a.all (fun x => decide (x ∈ b)) && b.all (fun x => decide (x ∈ a))

/-- Modelled from the spec: `LandmarkGraph::contains_identical_disjunctive_landmark`,
whose code is not part of the sources at hand: true iff the fact set of an
existing DISJUNCTIVE landmark is equal, as a set, to the given one. -/
def contains_identical_disjunctive_landmark (graph : LandmarkGraph)
    (fact_set : List FactPair) : Bool :=
  graph.nodes.any (fun n => n.landmark.disjunctive && same_fact_set n.landmark.facts fact_set)

/-- The nodes with the ids `k, k + 1, ...` in storage order. -/
def renumber : List LandmarkNode → Nat → List LandmarkNode
  | [], _ => []
  | n :: rest, k => { n with id := (k : Int) } :: renumber rest (k + 1)

/-- Modelled from the spec: `LandmarkGraph::set_landmark_ids`, whose code is
not part of the sources at hand: it reassigns the ids densely, `0 .. N - 1`,
in storage order. -/
def set_landmark_ids (graph : LandmarkGraph) : LandmarkGraph :=
  ⟨renumber graph.nodes 0⟩

/-! ## Writing the graph -/

/-- The decimal text that `operator<<` writes for an `int`. -/
def int_text (n : Int) : List Char := (Int.repr n).toList

/-- The loop of `dump_node` over the facts of the landmark (lines 96-108):
the catalog names, separated by `" | "` or `" & "`. -/
def dump_facts (catalog : Catalog) (landmark : Landmark) :
    List FactPair → Bool → Except Fault (List Char)
  | [], _ => pure []
  | fact :: rest, first => do
    let sep : List Char :=
      if !first then
        if landmark.disjunctive then " | ".toList
        else if landmark.conjunctive then " & ".toList
        else []
      else []
    let name ←
      match fact_name catalog fact.var fact.value with
      | some name => pure name
      | none => throw Fault.vector_index
    let tail ← dump_facts catalog landmark rest false
    pure (sep ++ name ++ tail)

/-- The text `dump_node` writes for a node. The test
`landmark.is_true_in_state(initial_state)`, whose code is not part of the
sources at hand, is the parameter `in_initial_state`. -/
def dump_node (catalog : Catalog) (in_initial_state : Landmark → Bool)
    (node : LandmarkNode) : Except Fault (List Char) := do
  let names ← dump_facts catalog node.landmark node.landmark.facts true
  pure ("  lm".toList ++ int_text node.id ++ " [label=\"".toList ++ names ++ "\"".toList
    ++ (if in_initial_state node.landmark then ", style=bold".toList else [])
    ++ (if node.landmark.is_true_in_goal then ", style=filled".toList else [])
    ++ "];\n".toList)

/-- The text `dump_edge` writes for an edge. -/
def dump_edge (src dst : Int) (edge : EdgeType) : List Char :=
  "      lm".toList ++ int_text src ++ " -> lm".toList ++ int_text dst ++ " [label=".toList
    ++ (match edge with
        | .NECESSARY => "\"nec\"".toList
        | .GREEDY_NECESSARY => "\"gn\"".toList
        | .NATURAL => "\"n\"".toList
        | .REASONABLE => "\"r\"".toList)
    ++ "];\n".toList

/-- The edge lines of one node, one for each of its children. -/
def dump_children (src : Int) : List (Int × EdgeType) → List Char
  | [] => []
  | child :: rest => dump_edge src child.1 child.2 ++ dump_children src rest

/-- The loop of `dump_landmark_graph` over the nodes (lines 146-153). -/
def dump_nodes (catalog : Catalog) (in_initial_state : Landmark → Bool) :
    List LandmarkNode → Except Fault (List Char)
  | [] => pure []
  | node :: rest => do
    let line ← dump_node catalog in_initial_state node
    let tail ← dump_nodes catalog in_initial_state rest
    pure (line ++ dump_children node.id node.children ++ tail)

/-- The document `dump_landmark_graph` writes to `output`. -/
def dump_landmark_graph (catalog : Catalog) (in_initial_state : Landmark → Bool)
    (graph : LandmarkGraph) : Except Fault (List Char) := do
  let body ← dump_nodes catalog in_initial_state graph.nodes
  pure ("digraph G \x7b\n".toList ++ body ++ "\x7d".toList ++ "\n".toList)

/-! ## Reading the graph -/

/-- The loop of `get_positions` (lines 195-198), started at `pos`; the
counter bounds the number of rounds. -/
def get_positions_loop (line sub : List Char) : Nat → Nat → List Nat
  | 0, _ => []
  | rounds + 1, pos =>
    if pos ≠ npos then pos :: get_positions_loop line sub rounds (str_find_from line sub (sz_add pos 1))
    else []

/-- The positions of all occurrences of `sub` in `line`. Every round of the
loop moves to a later position of the line, so `line.length + 1` rounds are
never used up. -/
def get_positions (line sub : List Char) : List Nat :=
  get_positions_loop line sub (line.length + 1) (str_find_from line sub 0)

/-- The name token that the loop of `read_node` cuts out of the line in round
`pos` (lines 217-223). -/
def token_at (line : List Char) (positions : List Nat) (pos : Nat) :
    Except Fault (List Char) :=
  let label := str_find line "label=".toList
  if pos = 0 then
    match positions.get? 0 with
    | none => .error .vector_index
    | some p0 => str_substr line (sz_add label 7) (sz_sub (sz_sub p0 label) 7)
  else
    match positions.get? (pos - 1) with
    | none => .error .vector_index
    | some prev =>
      if pos < positions.length then
        match positions.get? pos with
        | none => .error .vector_index
        | some p => str_substr line (sz_add prev 3) (sz_sub (sz_sub p prev) 3)
      else
        str_substr line (sz_add prev 3) (sz_sub (sz_sub (str_find line "];".toList) prev) 4)

/-- The fact appended for a resolved pair `(i, j)` (lines 225-232 and
242-250): the pair itself when both sides are resolved
(`get_variables()[i].get_fact(j).get_pair()`), otherwise a sentinel built
from the number of variables or from the domain size of variable 0. -/
def push_fact (catalog : Catalog) (facts : List FactPair) (i j : Int) :
    Except Fault (List FactPair) :=
  if 0 ≤ i ∧ 0 ≤ j then
    .ok (facts ++ [⟨i, j⟩])
  else if i < 0 then
    .ok (facts ++ [⟨(catalog.length : Int) + 1, j⟩])
  else if j < 0 then
    match catalog with
    | [] => .error .vector_index
    | names0 :: _ => .ok (facts ++ [⟨i, (names0.length : Int) + 1⟩])
  else .ok facts

/-- The loop of `read_node` over the rounds `pos` (lines 216-233). -/
def read_tokens (line : List Char) (catalog : Catalog) (positions : List Nat) :
    List Nat → List FactPair → Except Fault (List FactPair)
  | [], facts => pure facts
  | pos :: rest, facts => do
    let name ← token_at line positions pos
    let ij ← find_facts catalog name
    let facts1 ← push_fact catalog facts ij.1 ij.2
    read_tokens line catalog positions rest facts1

/-- The name of a line without separator (lines 236-240). -/
def simple_name (line : List Char) : Except Fault (List Char) :=
  let label := str_find line "label=".toList
  if str_find line "style".toList ≠ npos then
    str_substr line (sz_add label 7) (sz_sub (sz_sub (str_find line ", style".toList) label) 8)
  else
    str_substr line (sz_add label 7) (sz_sub (sz_sub (str_find line "];".toList) label) 8)

/-- The facts `read_node` collects from a line (lines 203-251). -/
def read_facts (line : List Char) (catalog : Catalog) : Except Fault (List FactPair) :=
  let disjunctive := decide (str_find line " | ".toList ≠ npos)
  let conjunctive := decide (str_find line " & ".toList ≠ npos)
  if disjunctive || conjunctive then
    let positions :=
      if disjunctive then get_positions line " | ".toList
      else get_positions line " & ".toList
    read_tokens line catalog positions (List.range (positions.length + 1)) []
  else do
    let name ← simple_name line
    let ij ← find_facts catalog name
    push_fact catalog [] ij.1 ij.2

/-- The landmark `read_node` builds from a line (lines 203-258), before the
graph is consulted. -/
def read_landmark (line : List Char) (catalog : Catalog) : Except Fault Landmark := do
  let facts ← read_facts line catalog
  let _node_id ← str_substr line (sz_add (str_find line "lm".toList) 2)
    (sz_sub (sz_sub (str_find line " [".toList) (str_find line "lm".toList)) 2)
  pure { facts := facts
         disjunctive := decide (str_find line " | ".toList ≠ npos)
         conjunctive := decide (str_find line " & ".toList ≠ npos)
         is_true_in_goal := decide (str_find line "style=filled".toList ≠ npos) }

/-- The insertion at the end of `read_node` (lines 260-279). -/
def insert_landmark (graph : LandmarkGraph) (landmark : Landmark) :
    Except Fault LandmarkGraph :=
  if landmark.disjunctive then
    if !contains_identical_disjunctive_landmark graph landmark.facts then
      .ok (add_landmark graph landmark)
    else .ok graph
  else if landmark.conjunctive then
    if !landmark.facts.all (contains_landmark graph) then .ok (add_landmark graph landmark)
    else .ok graph
  else
    match landmark.facts with
    | [] => .error .vector_index
    | fact0 :: _ =>
      if !contains_simple_landmark graph fact0 then .ok (add_landmark graph landmark)
      else .ok graph

/-- The function `read_node(line, task_proxy, graph)`: the landmark it builds
from the line, and the graph after the insertion. -/
def read_node (line : List Char) (catalog : Catalog) (graph : LandmarkGraph) :
    Except Fault (Landmark × LandmarkGraph) := do
  let landmark ← read_landmark line catalog
  let graph1 ← insert_landmark graph landmark
  pure (landmark, graph1)

/-- The function `read_edge(line)`. -/
def read_edge (line : List Char) : Except Fault EdgeType := do
  let _from_id ← str_substr line (sz_add (str_find line "lm".toList) 2)
    (sz_sub (sz_sub (str_find line " ->".toList) (str_find line "lm".toList)) 2)
  let _to_id ← str_substr line (sz_add (str_find line "-> lm".toList) 5)
    (sz_sub (sz_sub (str_find line " [".toList) (str_find line "-> lm".toList)) 5)
  let edge_type ← str_substr line (sz_add (str_find line "label=".toList) 7)
    (sz_sub (sz_sub (str_find line "]".toList) (str_find line "label=".toList)) 8)
  if edge_type = "\"nec\"".toList then pure EdgeType.NECESSARY
  else if edge_type = "\"gn\"".toList then pure EdgeType.GREEDY_NECESSARY
  else if edge_type = "\"n\"".toList then pure EdgeType.NATURAL
  else pure EdgeType.REASONABLE

/-- The state of the input stream: whether a file is open, the characters
not yet read, and the two state bits `getline` sets. -/
structure InputStream where
  is_open : Bool
  rest : List Char
  eofbit : Bool
  failbit : Bool
deriving DecidableEq, Repr

/-- The test `input.good()`. -/
def InputStream.good (input : InputStream) : Bool :=
  !input.eofbit && !input.failbit

/-- The characters up to the first newline, and what follows the newline when
there is one. -/
def cut_line : List Char → List Char × Option (List Char)
  | [] => ([], none)
  | c :: s =>
    if c = '\n' then ([], some s)
    else ((cut_line s).1.cons c, (cut_line s).2)

/-- The call `std::getline(input, line)`: on a stream that is not good it sets
`failbit` and leaves the line alone; otherwise it reads up to the next
newline, setting `eofbit` when the input ends first and `failbit` as well
when it read nothing. -/
def getline (input : InputStream) (line : List Char) : InputStream × List Char :=
  if !input.good then ({ input with failbit := true }, line)
  else
    match cut_line input.rest with
    | (text, some rest) => ({ input with rest := rest }, text)
    | (text, none) =>
      ({ input with rest := [], eofbit := true, failbit := decide (text = []) }, text)

/-- The body of the loop of `read_landmark_graph` (lines 311-316): a line
without `->` goes to `read_node`, which works on the graph passed by
reference; any other line goes to `read_edge`, whose result is dropped. -/
def read_line (catalog : Catalog) (line : List Char) (graph : LandmarkGraph) :
    Except Fault LandmarkGraph :=
  if str_find line "->".toList = npos then
    match read_node line catalog graph with
    | .error e => .error e
    | .ok r => .ok r.2
  else
    match read_edge line with
    | .error e => .error e
    | .ok _ => .ok graph

/-- The loop of `read_landmark_graph` (lines 310-318); the counter bounds the
number of rounds. -/
def read_lines (catalog : Catalog) :
    Nat → InputStream → List Char → LandmarkGraph → Except Fault (InputStream × LandmarkGraph)
  | 0, input, _, graph => .ok (input, graph)
  | rounds + 1, input, line, graph =>
    if input.good && decide (str_find line "\x7d".toList = npos) then
      match read_line catalog line graph with
      | .error e => .error e
      | .ok graph1 =>
        read_lines catalog rounds (getline input line).1 (getline input line).2 graph1
    else .ok (input, graph)

/-- What `read_landmark_graph` leaves behind: the graph it returns, the graph
passed by reference, and the stream. -/
structure ReadOutcome where
  returned : LandmarkGraph
  graph : LandmarkGraph
  input : InputStream
deriving DecidableEq, Repr

/-- The function `read_landmark_graph(task_proxy, input, graph)`. Every round
of the loop consumes a newline of the input, so `input.rest.length + 1`
rounds are never used up. -/
def read_landmark_graph (catalog : Catalog) (input : InputStream) (graph : LandmarkGraph) :
    Except Fault ReadOutcome :=
  let g := LandmarkGraph.empty
  if input.is_open then do
    let first := getline input []
    let second := getline first.1 first.2
    let r ← read_lines catalog (input.rest.length + 1) second.1 second.2 graph
    pure { returned := set_landmark_ids g, graph := r.2, input := r.1 }
  else pure { returned := g, graph := graph, input := input }

/-- The landmarks of a graph, without ids and edges. -/
def landmarks_of (graph : LandmarkGraph) : List Landmark :=
  graph.nodes.map (fun n => n.landmark)

/-- An open stream positioned at the start of a document. -/
def open_stream (document : List Char) : InputStream :=
  { is_open := true, rest := document, eofbit := false, failbit := false }

/-! ## The written document, line by line -/

/-- The separator `dump_node` puts between two names: `" | "` for a
disjunctive landmark, `" & "` for a conjunctive one, nothing otherwise. -/
def separator_of (landmark : Landmark) : List Char :=
  if landmark.disjunctive then " | ".toList
  else if landmark.conjunctive then " & ".toList
  else []

/-- The names joined by a separator. -/
def join_names (sep : List Char) : List (List Char) → List Char
  | [] => []
  | [name] => name
  | name :: rest => name ++ sep ++ join_names sep rest

/-- The catalog names of the facts, in order; a fact outside the catalog
contributes no text. -/
def names_of (catalog : Catalog) (facts : List FactPair) : List (List Char) :=
  facts.map (fun f => (fact_name catalog f.var f.value).getD [])

/-- The style flags after the label: `, style=bold` for a landmark true in
the initial state, then `, style=filled` for a landmark true in the goal. -/
def spec_flags (in_initial_state : Landmark → Bool) (landmark : Landmark) : List Char :=
  (if in_initial_state landmark then ", style=bold".toList else []) ++
  (if landmark.is_true_in_goal then ", style=filled".toList else [])

/-- The node line of the document dialect, `lm<id> [label="<names>"<flags>];`
indented by two blanks, without its newline. -/
def spec_node_line (catalog : Catalog) (in_initial_state : Landmark → Bool)
    (node : LandmarkNode) : List Char :=
  "  lm".toList ++ int_text node.id ++ " [label=\"".toList
    ++ join_names (separator_of node.landmark) (names_of catalog node.landmark.facts)
    ++ "\"".toList ++ spec_flags in_initial_state node.landmark ++ "];".toList

/-- The code of an edge type in the document dialect. -/
def edge_code : EdgeType → List Char
  | .NECESSARY => "nec".toList
  | .GREEDY_NECESSARY => "gn".toList
  | .NATURAL => "n".toList
  | .REASONABLE => "r".toList

/-- The edge line of the document dialect,
`lm<parentId> -> lm<childId> [label="<code>"];` indented by six blanks,
without its newline. -/
def spec_edge_line (parent : Int) (child : Int × EdgeType) : List Char :=
  "      lm".toList ++ int_text parent ++ " -> lm".toList ++ int_text child.1
    ++ " [label=\"".toList ++ edge_code child.2 ++ "\"];".toList

/-- The lines of the document of a graph: the opening line, for every node
its node line followed by one edge line for each of its children, and the
closing line. -/
def spec_document_lines (catalog : Catalog) (in_initial_state : Landmark → Bool)
    (graph : LandmarkGraph) : List (List Char) :=
  ["digraph G \x7b".toList]
    ++ (graph.nodes.map (fun node =>
          spec_node_line catalog in_initial_state node
            :: node.children.map (spec_edge_line node.id))).flatten
    ++ ["\x7d".toList]

/-- The text split at its newlines, a line being what precedes a newline;
`current` is the part of the line under way already passed. -/
def split_lines : List Char → List Char → List (List Char)
  | [], current => if current = [] then [] else [current]
  | c :: s, current =>
    if c = '\n' then current :: split_lines s []
    else split_lines s (current ++ [c])

/-- The lines of a text. -/
def lines_of (text : List Char) : List (List Char) := split_lines text []

/-- All positions at which `sub` occurs in the text whose first character has
index `i`. -/
def occurrences_from (sub : List Char) : List Char → Nat → List Nat
  | [], _ => []
  | c :: s, i =>
    if starts_with (c :: s) sub then i :: occurrences_from sub s (i + 1)
    else occurrences_from sub s (i + 1)

/-- The number of occurrences of `sub` in the line. -/
def count_occurrences (line sub : List Char) : Nat :=
  (occurrences_from sub line 0).length

/-- The name tokens `read_node` cuts from the line in the given rounds of its
loop, in order: the texts it passes to `find_facts`. -/
def name_tokens (line : List Char) (positions : List Nat) :
    List Nat → Except Fault (List (List Char))
  | [] => .ok []
  | pos :: rest =>
    match token_at line positions pos with
    | .error e => .error e
    | .ok name =>
      match name_tokens line positions rest with
      | .error e => .error e
      | .ok names => .ok (name :: names)

/-! ## The task behind the reached table -/

/-- A fact of a task whose variables have the given domain sizes:
`0 <= var < numberOfVariables` and `0 <= value < domainSize(var)`. -/
def fact_of_task (domains : List Nat) (f : FactPair) : Bool :=
  decide (0 ≤ f.var) && decide (0 ≤ f.value) &&
    (match domains.get? f.var.toNat with
     | some dom => decide (f.value.toNat < dom)
     | none => false)

/-- An operator of the task: its preconditions, the facts of its effects and
their conditions are facts of the task. -/
def operator_of_task (domains : List Nat) (op : Operator) : Bool :=
  op.preconditions.all (fact_of_task domains) &&
  op.effects.all (fun e => fact_of_task domains e.fact && e.conditions.all (fact_of_task domains))

/-- The table has an entry for every (variable, value) of the task. -/
def table_covers_task (reached : List (List Bool)) (domains : List Nat) : Bool :=
  (List.range domains.length).all (fun v =>
    (List.range (domains.getD v 0)).all (fun d => in_table reached ⟨(v : Int), (d : Int)⟩))

/-! ## Operators and axioms by id -/

/-- The operators and the axioms of a task, each with its preconditions and
effects (what `task_proxy.get_operators()` and `task_proxy.get_axioms()`
range over). -/
structure Task where
  operators : List (List FactPair × List Effect)
  axioms : List (List FactPair × List Effect)

/-- The proxy `get_operators()[index]`: the operator at that index, with
`get_id() = index` and `is_axiom() = false`. -/
def get_operators_at (task : Task) (index : Int) : Except Fault Operator :=
  if 0 ≤ index then
    match task.operators.get? index.toNat with
    | some body => .ok { preconditions := body.1, effects := body.2,
                         is_axiom_flag := false, id := index }
    | none => .error .vector_index
  else .error .vector_index

/-- The proxy `get_axioms()[index]`: the axiom at that index, with
`get_id() = index` and `is_axiom() = true`. -/
def get_axioms_at (task : Task) (index : Int) : Except Fault Operator :=
  if 0 ≤ index then
    match task.axioms.get? index.toNat with
    | some body => .ok { preconditions := body.1, effects := body.2,
                         is_axiom_flag := true, id := index }
    | none => .error .vector_index
  else .error .vector_index

/-- The function `get_operator_or_axiom(task_proxy, op_or_axiom_id)`. -/
def get_operator_or_axiom (task : Task) (op_or_axiom_id : Int) : Except Fault Operator :=
  if op_or_axiom_id < 0 then get_axioms_at task (-op_or_axiom_id - 1)
  else get_operators_at task op_or_axiom_id

/-- The function `get_operator_or_axiom_id(op)`. -/
def get_operator_or_axiom_id (op : Operator) : Int :=
  if op.is_axiom_flag then -op.id - 1 else op.id

/-! ## Intersection of two maps -/

/-- The lookup `m.find(key)` in a map given by its entries: the value of the
entry with that key, if there is one. -/
def map_find : List (Int × Int) → Int → Option Int
  | [], _ => none
  | entry :: rest, key => if entry.1 = key then some entry.2 else map_find rest key

/-- The call `m.insert(entry)`: the entry is added unless the key is there
already. -/
def map_insert (m : List (Int × Int)) (entry : Int × Int) : List (Int × Int) :=
  match map_find m entry.1 with
  | some _ => m
  | none => m ++ [entry]

/-- The loop of `_intersect` (lines 27-31) over the entries of `a`. -/
def intersect_loop : List (Int × Int) → List (Int × Int) → List (Int × Int) → List (Int × Int)
  | [], _, result => result
  | pair_a :: rest, b, result =>
    match map_find b pair_a.1 with
    | some value =>
      if value = pair_a.2 then intersect_loop rest b (map_insert result pair_a)
      else intersect_loop rest b result
    | none => intersect_loop rest b result

/-- The function `_intersect(a, b)` on two maps given by their entries, which
calls itself with the arguments swapped when `a` is the larger one. -/
def _intersect (a b : List (Int × Int)) : List (Int × Int) :=
  if a.length > b.length then _intersect b a
  else intersect_loop a b []
termination_by (if a.length > b.length then 1 else 0 : Nat)
decreasing_by
  simp_wf
  rename_i h
  rw [if_pos h, if_neg (by omega)]
  exact Nat.zero_lt_one

/-- The entries of a map have pairwise different keys. -/
def unique_keys (m : List (Int × Int)) : Prop := (m.map Prod.fst).Nodup

instance (m : List (Int × Int)) : Decidable (unique_keys m) := by
  unfold unique_keys
  infer_instance

/-! ## Relaxed reachability: lemmas -/

theorem reached_at_of_in_table {reached : List (List Bool)} {f : FactPair}
    (h : in_table reached f = true) :
    reached_at reached f = .ok (is_reached reached f) := by
  unfold in_table at h
  unfold is_reached
  cases hr : reached_at reached f with
  | error e => rw [hr] at h; simp at h
  | ok b => rfl

theorem row_at_of_in_table {reached : List (List Bool)} {f : FactPair}
    (h : in_table reached f = true) :
    ∃ row, row_at reached f.var = .ok row ∧ row.isEmpty = false := by
  unfold in_table reached_at at h
  unfold row_at
  by_cases hv : 0 ≤ f.var ∧ 0 ≤ f.value
  · rw [if_pos hv] at h
    rw [if_pos hv.1]
    cases hrow : reached.get? f.var.toNat with
    | none => rw [hrow] at h; simp at h
    | some row =>
      rw [hrow] at h
      refine ⟨row, rfl, ?_⟩
      cases row with
      | nil => simp at h
      | cons b bs => rfl
  · rw [if_neg hv] at h; simp at h

theorem preconditions_reached_eq {reached : List (List Bool)} :
    ∀ (pres : List FactPair), pres.all (in_table reached) = true →
      preconditions_reached pres reached = .ok (pres.all (is_reached reached))
  | [], _ => rfl
  | pre :: rest, h => by
    simp only [List.all_cons, Bool.and_eq_true] at h
    have ih := preconditions_reached_eq rest h.2
    unfold preconditions_reached
    rw [reached_at_of_in_table h.1]
    cases hb : is_reached reached pre with
    | false => simp [hb]
    | true => simp [ih, hb]

theorem _possibly_fires_eq {reached : List (List Bool)} :
    ∀ (conds : List FactPair), conds.all (in_table reached) = true →
      _possibly_fires conds reached = .ok (conds.all (is_reached reached))
  | [], _ => rfl
  | cond :: rest, h => by
    simp only [List.all_cons, Bool.and_eq_true] at h
    have ih := _possibly_fires_eq rest h.2
    unfold _possibly_fires
    rw [reached_at_of_in_table h.1]
    cases hb : is_reached reached cond with
    | false => simp [hb]
    | true => simp [ih, hb]

theorem match_effect_eq {reached : List (List Bool)} (effect : Effect)
    (h : effect.conditions.all (in_table reached) = true) :
    ∀ (facts : List FactPair),
      match_effect effect reached facts =
        .ok (decide (effect.fact ∈ facts) && effect.conditions.all (is_reached reached))
  | [] => by simp [match_effect]
  | fact :: rest => by
    unfold match_effect
    by_cases heq : effect.fact = fact
    · rw [if_pos heq, _possibly_fires_eq _ h]
      simp [heq]
    · rw [if_neg heq, match_effect_eq effect h rest]
      simp [heq]

theorem scan_effects_eq {reached : List (List Bool)} (facts : List FactPair) :
    ∀ (effects : List Effect),
      effects.all (fun e => in_table reached e.fact && e.conditions.all (in_table reached)) = true →
      scan_effects effects reached facts = .ok (effects.any (fires_on reached facts))
  | [], _ => rfl
  | effect :: rest, h => by
    simp only [List.all_cons, Bool.and_eq_true] at h
    have ih := scan_effects_eq facts rest h.2
    obtain ⟨row, hrow, hne⟩ := row_at_of_in_table h.1.1
    unfold scan_effects
    rw [hrow]
    simp only [hne, Bool.false_eq_true, if_false]
    rw [match_effect_eq effect h.1.2 facts]
    cases hb : (decide (effect.fact ∈ facts) && effect.conditions.all (is_reached reached)) with
    | false => simp [ih, fires_on, hb]
    | true => simp [fires_on, hb]

theorem possibly_reaches_lm_eq (op : Operator) (reached : List (List Bool))
    (landmark : Landmark) (hne : reached ≠ []) (hcov : covers reached op = true) :
    possibly_reaches_lm op reached landmark =
      .ok (op.preconditions.all (is_reached reached) &&
           op.effects.any (fires_on reached landmark.facts)) := by
  unfold covers at hcov
  rw [Bool.and_eq_true] at hcov
  unfold possibly_reaches_lm
  have hemp : reached.isEmpty = false := by
    cases reached with
    | nil => exact absurd rfl hne
    | cons r rs => rfl
  simp only [hemp, Bool.false_eq_true, if_false]
  rw [preconditions_reached_eq _ hcov.1]
  cases hb : op.preconditions.all (is_reached reached) with
  | false => simp
  | true => simp [scan_effects_eq landmark.facts op.effects hcov.2]

theorem in_table_iff (reached : List (List Bool)) (f : FactPair) :
    in_table reached f = true ↔
      0 ≤ f.var ∧ 0 ≤ f.value ∧
        ∃ n, (reached.map List.length).get? f.var.toNat = some n ∧ f.value.toNat < n := by
  unfold in_table reached_at
  by_cases hv : 0 ≤ f.var ∧ 0 ≤ f.value
  · rw [if_pos hv]
    rw [List.get?_eq_getElem?, List.get?_eq_getElem?, List.getElem?_map]
    cases hrow : reached[f.var.toNat]? with
    | none =>
      constructor
      · intro h; cases h
      · rintro ⟨_, _, n, hn, _⟩; cases hn
    | some row =>
      simp only [List.get?_eq_getElem?]
      cases hval : row[f.value.toNat]? with
      | none =>
        have hle := List.getElem?_eq_none_iff.mp hval
        constructor
        · intro h; cases h
        · rintro ⟨_, _, n, hn, hlt⟩
          simp only [Option.map_some', Option.some.injEq] at hn
          omega
      | some b =>
        obtain ⟨hlt, _⟩ := List.getElem?_eq_some_iff.mp hval
        constructor
        · intro _
          exact ⟨hv.1, hv.2, row.length, rfl, hlt⟩
        · intro _; rfl
  · rw [if_neg hv]
    constructor
    · intro h; cases h
    · intro h
      exact absurd ⟨h.1, h.2.1⟩ hv

theorem in_table_of_same_shape {r1 r2 : List (List Bool)}
    (hshape : same_shape r1 r2 = true) (f : FactPair) :
    in_table r1 f = in_table r2 f := by
  have hmap : r1.map List.length = r2.map List.length := by
    simpa [same_shape] using hshape
  have h1 := in_table_iff r1 f
  have h2 := in_table_iff r2 f
  rw [hmap] at h1
  cases hb : in_table r2 f with
  | true => exact h1.mpr (h2.mp hb)
  | false =>
    cases ha : in_table r1 f with
    | false => rfl
    | true => rw [h2.mpr (h1.mp ha)] at hb; exact absurd hb (by simp)

theorem covers_of_same_shape {r1 r2 : List (List Bool)}
    (hshape : same_shape r1 r2 = true) (op : Operator) :
    covers r1 op = covers r2 op := by
  have hfun : in_table r1 = in_table r2 := funext (in_table_of_same_shape hshape)
  unfold covers
  rw [hfun]

/-! ## Relaxed reachability: the claims -/

/-- C1: with a non-empty table that has an entry for every fact of the
operator, `possibly_reaches_lm` returns a boolean, and it returns `true`
exactly when every precondition is reached and some effect lands on a fact of
the landmark with all its conditions reached; in particular an applicable
operator with an unconditional effect on a landmark fact yields `true`. -/
theorem possibly_reaches_lm_iff (op : Operator) (reached : List (List Bool))
    (landmark : Landmark) (hne : reached ≠ []) (hcov : covers reached op = true) :
    (∃ b, possibly_reaches_lm op reached landmark = .ok b) ∧
    (possibly_reaches_lm op reached landmark = .ok true ↔
      (∀ pre ∈ op.preconditions, is_reached reached pre = true) ∧
      ∃ e ∈ op.effects, e.fact ∈ landmark.facts ∧
        ∀ c ∈ e.conditions, is_reached reached c = true) ∧
    ((∀ pre ∈ op.preconditions, is_reached reached pre = true) →
      (∃ e ∈ op.effects, e.conditions = [] ∧ e.fact ∈ landmark.facts) →
      possibly_reaches_lm op reached landmark = .ok true) := by
  have heq := possibly_reaches_lm_eq op reached landmark hne hcov
  have hiff : possibly_reaches_lm op reached landmark = .ok true ↔
      (∀ pre ∈ op.preconditions, is_reached reached pre = true) ∧
      ∃ e ∈ op.effects, e.fact ∈ landmark.facts ∧
        ∀ c ∈ e.conditions, is_reached reached c = true := by
    rw [heq]
    simp [fires_on]
  refine ⟨⟨_, heq⟩, hiff, ?_⟩
  intro hpre heff
  obtain ⟨e, he, hnil, hfact⟩ := heff
  refine hiff.mpr ⟨hpre, e, he, hfact, ?_⟩
  rw [hnil]
  intro c hc
  cases hc

/-- Scenario 1 of the specification: precondition `(v0,0)` reached, one
unconditional effect `(v1,1)`, landmark `{(v1,1)}`. -/
theorem possibly_reaches_lm_iff_witness :
    possibly_reaches_lm
      { preconditions := [⟨0, 0⟩], effects := [⟨⟨1, 1⟩, []⟩], is_axiom_flag := false, id := 0 }
      [[true], [false, false]]
      { facts := [⟨1, 1⟩], disjunctive := false, conjunctive := false, is_true_in_goal := false }
      = .ok true :=
  (possibly_reaches_lm_iff
      { preconditions := [⟨0, 0⟩], effects := [⟨⟨1, 1⟩, []⟩], is_axiom_flag := false, id := 0 }
      [[true], [false, false]]
      { facts := [⟨1, 1⟩], disjunctive := false, conjunctive := false, is_true_in_goal := false }
      (by decide) (by decide)).2.2 (by decide) (by decide)

/-- C2: when the table has an entry for each precondition of the operator and
at least one precondition is not marked reached, `possibly_reaches_lm` returns
`false`, whatever the effects of the operator and the facts of the landmark
are. -/
theorem possibly_reaches_lm_unreached_precondition (op : Operator)
    (reached : List (List Bool)) (landmark : Landmark)
    (hin : ∀ pre ∈ op.preconditions, in_table reached pre = true)
    (hun : ∃ pre ∈ op.preconditions, is_reached reached pre = false) :
    possibly_reaches_lm op reached landmark = .ok false := by
  obtain ⟨pre, hmem, hpre⟩ := hun
  have hemp : reached.isEmpty = false := by
    cases reached with
    | nil =>
      have := hin pre hmem
      simp [in_table, reached_at] at this
    | cons r rs => rfl
  have hall : op.preconditions.all (in_table reached) = true := by
    simpa using hin
  have hfalse : op.preconditions.all (is_reached reached) = false := by
    rw [List.all_eq_false]
    exact ⟨pre, hmem, by simp [hpre]⟩
  unfold possibly_reaches_lm
  simp only [hemp, Bool.false_eq_true, if_false]
  rw [preconditions_reached_eq _ hall, hfalse]

/-- Scenario 2 of the specification: the operator of scenario 1 with its
precondition `(v0,0)` not reached. -/
theorem possibly_reaches_lm_unreached_precondition_witness :
    possibly_reaches_lm
      { preconditions := [⟨0, 0⟩], effects := [⟨⟨1, 1⟩, []⟩], is_axiom_flag := false, id := 0 }
      [[false], [false, true]]
      { facts := [⟨1, 1⟩], disjunctive := false, conjunctive := false, is_true_in_goal := false }
      = .ok false :=
  possibly_reaches_lm_unreached_precondition
      { preconditions := [⟨0, 0⟩], effects := [⟨⟨1, 1⟩, []⟩], is_axiom_flag := false, id := 0 }
      [[false], [false, true]]
      { facts := [⟨1, 1⟩], disjunctive := false, conjunctive := false, is_true_in_goal := false }
      (by decide) (by decide)

/-- C3: reachability monotonicity. For two tables of the same shape, the
first having an entry for every fact of the operator, where every fact reached
in the first is reached in the second: if `possibly_reaches_lm` returns `true`
on the first table, it returns `true` on the second. -/
theorem possibly_reaches_lm_mono (op : Operator) (landmark : Landmark)
    (r1 r2 : List (List Bool)) (hshape : same_shape r1 r2 = true)
    (hsub : ∀ f, is_reached r1 f = true → is_reached r2 f = true)
    (hcov : covers r1 op = true)
    (h : possibly_reaches_lm op r1 landmark = .ok true) :
    possibly_reaches_lm op r2 landmark = .ok true := by
  have hne1 : r1 ≠ [] := by
    intro hnil
    rw [hnil] at h
    simp [possibly_reaches_lm] at h
  have hne2 : r2 ≠ [] := by
    intro hnil
    apply hne1
    have hmap : r1.map List.length = r2.map List.length := by
      simpa [same_shape] using hshape
    rw [hnil] at hmap
    simpa using hmap
  have hcov2 : covers r2 op = true := by
    rw [← covers_of_same_shape hshape op]; exact hcov
  rw [possibly_reaches_lm_eq op r1 landmark hne1 hcov] at h
  rw [possibly_reaches_lm_eq op r2 landmark hne2 hcov2]
  simp only [Except.ok.injEq, Bool.and_eq_true, List.all_eq_true, List.any_eq_true,
    fires_on, decide_eq_true_eq] at h ⊢
  obtain ⟨hpre, e, he, hfact, hconds⟩ := h
  exact ⟨fun p hp => hsub p (hpre p hp), e, he, hfact, fun c hc => hsub c (hconds c hc)⟩

/-- A table growing from `[[true], [false, true], [false]]` to
`[[true], [true, true], [true]]`: the operator reaches the landmark in both. -/
theorem possibly_reaches_lm_mono_witness :
    possibly_reaches_lm
      { preconditions := [⟨0, 0⟩], effects := [⟨⟨1, 0⟩, [⟨2, 0⟩]⟩, ⟨⟨1, 1⟩, []⟩],
        is_axiom_flag := false, id := 0 }
      [[true], [true, true], [true]]
      { facts := [⟨1, 1⟩, ⟨1, 0⟩], disjunctive := true, conjunctive := false,
        is_true_in_goal := false }
      = .ok true :=
  possibly_reaches_lm_mono
      { preconditions := [⟨0, 0⟩], effects := [⟨⟨1, 0⟩, [⟨2, 0⟩]⟩, ⟨⟨1, 1⟩, []⟩],
        is_axiom_flag := false, id := 0 }
      { facts := [⟨1, 1⟩, ⟨1, 0⟩], disjunctive := true, conjunctive := false,
        is_true_in_goal := false }
      [[true], [false, true], [false]]
      [[true], [true, true], [true]]
      (by decide)
      (by
        intro f hf
        have h1 : in_table [[true], [false, true], [false]] f = true := by
          unfold is_reached at hf; unfold in_table
          cases hr : reached_at [[true], [false, true], [false]] f with
          | error e => rw [hr] at hf; simp at hf
          | ok b => rfl
        have h2 : in_table [[true], [true, true], [true]] f = true := by
          rw [← @in_table_of_same_shape [[true], [false, true], [false]] _ (by decide) f]; exact h1
        have h3 := reached_at_of_in_table h2
        obtain ⟨hv, hd, n, hn, hlt⟩ := (in_table_iff _ f).mp h2
        obtain ⟨v, d⟩ := f
        simp only at hv hd hn hlt h3 ⊢
        obtain ⟨vn, rfl⟩ := Int.eq_ofNat_of_zero_le hv
        obtain ⟨dn, rfl⟩ := Int.eq_ofNat_of_zero_le hd
        simp only [Int.toNat_ofNat] at hn hlt
        match vn, dn, hn, hlt with
        | 0, 0, _, _ => decide
        | 1, 0, _, _ => decide
        | 1, 1, _, _ => decide
        | 2, 0, _, _ => decide
        | 0, d + 1, hn, hlt => simp at hn; omega
        | 1, d + 2, hn, hlt => simp at hn; omega
        | 2, d + 1, hn, hlt => simp at hn; omega
        | v + 3, _, hn, _ => simp at hn)
      (by decide) rfl

/-! ## Strings: lemmas -/

theorem starts_with_length : ∀ (s sub : List Char), starts_with s sub = true →
    sub.length ≤ s.length
  | _, [], _ => by simp
  | [], _ :: _, h => by simp [starts_with] at h
  | c :: s, d :: sub, h => by
    simp only [starts_with, Bool.and_eq_true] at h
    have := starts_with_length s sub h.2
    simp only [List.length_cons]
    omega

theorem find_at_bound (sub : List Char) : ∀ (s : List Char) (i : Nat),
    find_at sub s i = npos ∨
      (i ≤ find_at sub s i ∧ find_at sub s i + sub.length ≤ i + s.length)
  | [], i => by
    unfold find_at
    cases hsub : sub.isEmpty with
    | false => left; simp
    | true =>
      right
      have : sub = [] := by simpa using hsub
      simp [this]
  | c :: s, i => by
    unfold find_at
    cases hst : starts_with (c :: s) sub with
    | true =>
      right
      have := starts_with_length _ _ hst
      simp only [if_true, le_refl, true_and]
      omega
    | false =>
      simp only [Bool.false_eq_true, if_false]
      rcases find_at_bound sub s (i + 1) with h | h
      · left; exact h
      · right
        simp only [List.length_cons]
        omega

theorem str_find_bound (s sub : List Char) :
    str_find s sub = npos ∨ str_find s sub + sub.length ≤ s.length := by
  unfold str_find str_find_from
  simp only [Nat.not_lt_zero, if_false, List.drop_zero]
  rcases find_at_bound sub s 0 with h | h
  · left; exact h
  · right; omega

theorem str_substr_ok (s : List Char) (pos n : Nat) (h : pos ≤ s.length) :
    str_substr s pos n = .ok (take_chars (s.drop pos) n) := by
  unfold str_substr
  rw [if_neg (by omega)]

theorem str_substr_error {s : List Char} {pos n : Nat} {e : Fault}
    (h : str_substr s pos n = .error e) : e = .out_of_range := by
  unfold str_substr at h
  split at h
  · cases h; rfl
  · cases h

theorem sz_add_find_le (s sub : List Char) (k : Nat) (hk : k ≤ sub.length)
    (hnpos : str_find s sub = npos → (npos + k) % 18446744073709551616 ≤ s.length) :
    sz_add (str_find s sub) k ≤ s.length := by
  unfold sz_add
  rcases str_find_bound s sub with h | h
  · rw [h]; exact hnpos h
  · exact le_trans (Nat.mod_le _ _) (by omega)

theorem first_of_two_ok (s : List Char) : ∃ a, first_of_two s = .ok a := by
  unfold first_of_two
  exact ⟨_, str_substr_ok _ _ _ (sz_add_find_le s _ 1 (by decide) (fun _ => by simp [npos]))⟩

theorem only_argument_ok (s : List Char) : ∃ a, only_argument s = .ok a := by
  unfold only_argument
  exact ⟨_, str_substr_ok _ _ _ (sz_add_find_le s _ 1 (by decide) (fun _ => by simp [npos]))⟩

theorem second_of_two_ok (s : List Char)
    (h : s ≠ [] ∨ str_find s ", ".toList ≠ npos) : ∃ b, second_of_two s = .ok b := by
  unfold second_of_two
  refine ⟨_, str_substr_ok _ _ _ (sz_add_find_le s _ 2 (by decide) ?_)⟩
  intro hn
  rcases h with h | h
  · cases s with
    | nil => exact absurd rfl h
    | cons c s => simp [npos]
  · exact absurd hn h

/-! ## `find_facts`: lemmas -/

theorem find_facts_values_eq (name : List Char) (i : Nat) :
    ∀ (names : List (List Char)) (j : Nat) (vv : Int × Int),
      find_facts_values name i names j vv = scan_entries name (value_entries i names j) vv
  | [], _, _ => rfl
  | tmp :: rest, j, vv => by
    unfold find_facts_values value_entries scan_entries
    simp only [find_facts_values_eq name i rest]

theorem scan_entries_append (name : List Char) :
    ∀ (a b : List (Nat × Nat × List Char)) (vv : Int × Int),
      scan_entries name (a ++ b) vv = (scan_entries name a vv >>= scan_entries name b)
  | [], _, _ => rfl
  | e :: a, b, vv => by
    simp only [List.cons_append, scan_entries]
    cases hstep : find_facts_step name e.2.2 e.1 e.2.1 vv with
    | error err => rfl
    | ok vv1 =>
      simp only [bind, Except.bind]
      exact scan_entries_append name a b vv1

theorem find_facts_vars_eq (name : List Char) :
    ∀ (catalog : Catalog) (i : Nat) (vv : Int × Int),
      find_facts_vars name catalog i vv = scan_entries name (catalog_entries catalog i) vv
  | [], _, _ => rfl
  | names :: rest, i, vv => by
    unfold find_facts_vars catalog_entries
    rw [scan_entries_append, find_facts_values_eq]
    cases hscan : scan_entries name (value_entries i names 0) vv with
    | error err => rfl
    | ok vv1 =>
      simp only [bind, Except.bind]
      exact find_facts_vars_eq name rest (i + 1) vv1

theorem find_facts_eq_scan (catalog : Catalog) (name : List Char) :
    find_facts catalog name = scan_entries name (entries catalog) (-1, -1) :=
  find_facts_vars_eq name catalog 0 (-1, -1)

theorem find_facts_step_error {name tmp : List Char} {i j : Nat} {vv : Int × Int} {e : Fault}
    (h : find_facts_step name tmp i j vv = .error e) : e = .out_of_range := by
  unfold find_facts_step at h
  obtain ⟨a, ha⟩ := first_of_two_ok name
  obtain ⟨b, hb⟩ := first_of_two_ok tmp
  obtain ⟨c, hc⟩ := only_argument_ok name
  obtain ⟨d, hd⟩ := only_argument_ok tmp
  rw [ha, hb, hc, hd] at h
  split at h
  · simp only [bind, Except.bind, pure, Except.pure] at h
    cases h1 : second_of_two name with
    | error e1 =>
      rw [h1] at h
      simp only at h
      cases h
      unfold second_of_two at h1
      exact str_substr_error h1
    | ok x =>
      rw [h1] at h
      simp only at h
      cases h2 : second_of_two tmp with
      | error e2 =>
        rw [h2] at h
        simp only at h
        cases h
        unfold second_of_two at h2
        exact str_substr_error h2
      | ok y => rw [h2] at h; cases h
  · split at h
    · cases h
    · cases h

theorem scan_entries_error (name : List Char) :
    ∀ (es : List (Nat × Nat × List Char)) (vv : Int × Int) (e : Fault),
      scan_entries name es vv = .error e → e = .out_of_range
  | [], _, _, h => by cases h
  | x :: rest, vv, e, h => by
    unfold scan_entries at h
    cases hstep : find_facts_step name x.2.2 x.1 x.2.1 vv with
    | error err =>
      rw [hstep] at h
      cases h
      exact find_facts_step_error hstep
    | ok vv1 =>
      rw [hstep] at h
      exact scan_entries_error name rest vv1 e h

theorem find_facts_error {catalog : Catalog} {name : List Char} {e : Fault}
    (h : find_facts catalog name = .error e) : e = .out_of_range := by
  rw [find_facts_eq_scan] at h
  exact scan_entries_error name _ _ e h

theorem find_facts_step_two (name tmp : List Char) (i j : Nat) (vv : Int × Int)
    (htwo : str_find name ", ".toList ≠ npos) (htmp : tmp ≠ []) :
    ∃ a b c d, first_of_two name = .ok a ∧ first_of_two tmp = .ok b ∧
      second_of_two name = .ok c ∧ second_of_two tmp = .ok d ∧
      find_facts_step name tmp i j vv =
        .ok (if a = b then (i : Int) else vv.1, if c = d then (j : Int) else vv.2) := by
  obtain ⟨a, ha⟩ := first_of_two_ok name
  obtain ⟨b, hb⟩ := first_of_two_ok tmp
  obtain ⟨c, hc⟩ := second_of_two_ok name (Or.inr htwo)
  obtain ⟨d, hd⟩ := second_of_two_ok tmp (Or.inl htmp)
  refine ⟨a, b, c, d, ha, hb, hc, hd, ?_⟩
  unfold find_facts_step
  rw [if_pos htwo, ha, hb, hc, hd]
  rfl

theorem scan_entries_two (name : List Char) (v d : Nat)
    (htwo : str_find name ", ".toList ≠ npos) :
    ∀ (es : List (Nat × Nat × List Char)) (vv : Int × Int),
      (∀ e ∈ es, e.2.2 ≠ [] ∧
        (first_of_two e.2.2 = first_of_two name → e.1 = v) ∧
        (second_of_two e.2.2 = second_of_two name → e.2.1 = d)) →
      ∃ vv1, scan_entries name es vv = .ok vv1 ∧
        ((vv = ((v : Int), (d : Int)) ∨ (v, d, name) ∈ es) → vv1 = ((v : Int), (d : Int)))
  | [], vv, _ => ⟨vv, rfl, fun h => by
      rcases h with h | h
      · exact h
      · cases h⟩
  | e :: rest, vv, hes => by
    obtain ⟨hne, hvar, hval⟩ := hes e (List.mem_cons_self _ _)
    obtain ⟨a, b, c, d1, ha, hb, hc, hd, hstep⟩ :=
      find_facts_step_two name e.2.2 e.1 e.2.1 vv htwo hne
    obtain ⟨vv1, hscan, hvv1⟩ := scan_entries_two name v d htwo rest
      (if a = b then (e.1 : Int) else vv.1, if c = d1 then (e.2.1 : Int) else vv.2)
      (fun x hx => hes x (List.mem_cons_of_mem _ hx))
    refine ⟨vv1, ?_, ?_⟩
    · unfold scan_entries
      rw [hstep]
      exact hscan
    · intro h
      apply hvv1
      rcases h with h | h
      · left
        have h1 : a = b → (e.1 : Int) = v := fun hab => by
          rw [hvar (by rw [ha, hb, hab])]
        have h2 : c = d1 → (e.2.1 : Int) = d := fun hcd => by
          rw [hval (by rw [hc, hd, hcd])]
        rw [h]
        by_cases hab : a = b <;> by_cases hcd : c = d1 <;> simp [hab, hcd, h1, h2]
      · rcases List.mem_cons.mp h with h | h
        · left
          have hab : a = b := by
            rw [← h] at hb
            rw [ha] at hb
            exact Except.ok.inj hb
          have hcd : c = d1 := by
            rw [← h] at hd
            rw [hc] at hd
            exact Except.ok.inj hd
          rw [if_pos hab, if_pos hcd, ← h]
        · right; exact h

/-! ## `find_facts`: the claims -/

/-- C5, evaluated on the code: with the catalog `handempty()` for `(0, 0)` and
`armempty()` for `(1, 0)`, `find_facts` resolves `handempty()` to `(1, 0)`,
which the catalog renders as `armempty()`; with the catalog holding only
`armempty()`, it resolves the variable side alone, `(0, -1)`; and the line
`lm0 [label="handempty()", style=bold];` read against a catalog rendering
`handempty()` for `(7, 0)` and `armempty()` for `(8, 0)` gives the landmark
`{(8, 0)}`. -/
theorem find_facts_zero_arguments_mismatch :
    find_facts [["handempty()".toList], ["armempty()".toList]] "handempty()".toList
      = .ok (1, 0) ∧
    fact_name [["handempty()".toList], ["armempty()".toList]] 1 0 = some "armempty()".toList ∧
    find_facts [["armempty()".toList]] "handempty()".toList = .ok (0, -1) ∧
    fact_name [[], [], [], [], [], [], [], ["handempty()".toList], ["armempty()".toList]] 7 0
      = some "handempty()".toList ∧
    (read_landmark "  lm0 [label=\"handempty()\", style=bold];".toList
      [[], [], [], [], [], [], [], ["handempty()".toList], ["armempty()".toList]]).map
        (fun lm => lm.facts) = .ok [⟨8, 0⟩] := by
  refine ⟨rfl, rfl, rfl, rfl, rfl⟩

/-- C6, the claim fails as stated: the catalog renders `on(a, c)` for the
pair `(0, 1)` only, yet `find_facts` returns `(0, 0)`, the value id of
`on(b, c)`; the label `on(a, b) | on(a, c)` parses to the facts `(0, 0)` and
`(0, 0)`; and against a catalog with an empty name `substr` throws. -/
theorem find_facts_two_arguments_counterexample :
    (entries [["on(a, b)".toList, "on(a, c)".toList], ["on(b, c)".toList, "on(b, a)".toList]]).filter
        (fun e => decide (e.2.2 = "on(a, c)".toList)) = [(0, 1, "on(a, c)".toList)] ∧
    find_facts [["on(a, b)".toList, "on(a, c)".toList], ["on(b, c)".toList, "on(b, a)".toList]]
      "on(a, c)".toList = .ok (0, 0) ∧
    (read_landmark "  lm0 [label=\"on(a, b) | on(a, c)\"];".toList
      [["on(a, b)".toList, "on(a, c)".toList], ["on(b, c)".toList, "on(b, a)".toList]]).map
        (fun lm => lm.facts) = .ok [⟨0, 0⟩, ⟨0, 0⟩] ∧
    find_facts [[[]], ["on(a, c)".toList]] "on(a, c)".toList = .error .out_of_range := by
  refine ⟨rfl, rfl, rfl, rfl⟩

/-- A 2-argument name whose first argument text occurs in variable `v` only
and whose second argument text occurs at value id `d` only resolves to
`(v, d)`. -/
theorem find_facts_of_unique_arguments (catalog : Catalog) (name : List Char) (v d : Nat)
    (htwo : str_find name ", ".toList ≠ npos)
    (hname : (v, d, name) ∈ entries catalog)
    (hne : ∀ e ∈ entries catalog, e.2.2 ≠ [])
    (hvar : ∀ e ∈ entries catalog, first_of_two e.2.2 = first_of_two name → e.1 = v)
    (hval : ∀ e ∈ entries catalog, second_of_two e.2.2 = second_of_two name → e.2.1 = d) :
    find_facts catalog name = .ok ((v : Int), (d : Int)) := by
  obtain ⟨vv1, hscan, hvv1⟩ := scan_entries_two name v d htwo (entries catalog) (-1, -1)
    (fun e he => ⟨hne e he, hvar e he, hval e he⟩)
  rw [find_facts_eq_scan, hscan, hvv1 (Or.inr hname)]

/-- C7, evaluated on the code: the 1-argument name `clear(a)` holds no `, `
and no `()`, so `name.find("()")` is `npos`, which is not zero, and the
equality test of line 177 decides: against a catalog that renders `clear(a)`
for `(0, 0)`, `find_facts` returns `(0, 0)`, the value side being `0` and not
`-1`; the 1-argument branch itself (lines 180-186), taken by `holding(a)`,
sets the variable side only and gives `(0, -1)`. -/
theorem find_facts_one_argument_resolves_value :
    str_find "clear(a)".toList ", ".toList = npos ∧
    str_find "clear(a)".toList "()".toList = npos ∧
    find_facts [["clear(a)".toList]] "clear(a)".toList = .ok (0, 0) ∧
    find_facts [["clear(a)".toList]] "holding(a)".toList = .ok (0, -1) := by
  refine ⟨rfl, rfl, rfl, rfl⟩

/-! ## The bounded loops never use up their rounds -/

theorem str_find_from_bound (s sub : List Char) (p : Nat) :
    str_find_from s sub p = npos ∨
      (p ≤ str_find_from s sub p ∧ str_find_from s sub p + sub.length ≤ s.length) := by
  unfold str_find_from
  by_cases h : s.length < p
  · left; rw [if_pos h]
  · rw [if_neg h]
    rcases find_at_bound sub (s.drop p) p with hb | hb
    · left; exact hb
    · right
      rw [List.length_drop] at hb
      omega

/-- More rounds than the line is long change nothing: the loop of
`get_positions` has reached `npos` before. -/
theorem get_positions_loop_rounds (line sub : List Char) (hlen : line.length < npos)
    (hsub : sub ≠ []) :
    ∀ (rounds pos extra : Nat), (pos = npos ∨ pos < line.length) →
      (pos ≠ npos → line.length - pos ≤ rounds) →
      get_positions_loop line sub (rounds + extra) pos = get_positions_loop line sub rounds pos
  | 0, pos, extra, hpos, hrounds => by
    have hn : pos = npos := by
      by_contra hne
      have := hrounds hne
      rcases hpos with h | h
      · exact hne h
      · omega
    cases extra with
    | zero => rfl
    | succ k =>
      rw [Nat.zero_add]
      unfold get_positions_loop
      rw [if_neg (fun h => h hn)]
  | rounds + 1, pos, extra, hpos, hrounds => by
    have hadd : rounds + 1 + extra = (rounds + extra) + 1 := by omega
    rw [hadd]
    unfold get_positions_loop
    by_cases hn : pos = npos
    · rw [if_neg (fun h => h hn), if_neg (fun h => h hn)]
    · rw [if_pos hn, if_pos hn]
      have hlt : pos < line.length := by
        rcases hpos with h | h
        · exact absurd h hn
        · exact h
      have hstep : sz_add pos 1 = pos + 1 := by
        unfold sz_add
        unfold npos at hlen
        exact Nat.mod_eq_of_lt (by omega)
      have hsublen : 1 ≤ sub.length := by
        cases sub with
        | nil => exact absurd rfl hsub
        | cons c cs => simp
      rw [hstep]
      have hnext := str_find_from_bound line sub (pos + 1)
      rw [get_positions_loop_rounds line sub hlen hsub rounds _ extra]
      · rcases hnext with h | h
        · left; exact h
        · right; omega
      · intro hne
        rcases hnext with h | h
        · exact absurd h hne
        · have := hrounds hn
          omega

theorem get_positions_rounds (line sub : List Char) (hlen : line.length < npos)
    (hsub : sub ≠ []) (extra : Nat) :
    get_positions_loop line sub (line.length + 1 + extra) (str_find_from line sub 0)
      = get_positions line sub := by
  unfold get_positions
  have hsublen : 1 ≤ sub.length := by
    cases sub with
    | nil => exact absurd rfl hsub
    | cons c cs => simp
  apply get_positions_loop_rounds line sub hlen hsub
  · rcases str_find_from_bound line sub 0 with h | h
    · left; exact h
    · right; omega
  · intro _
    omega

theorem cut_line_length : ∀ (s rest : List Char), (cut_line s).2 = some rest →
    rest.length < s.length
  | [], rest, h => by simp [cut_line] at h
  | c :: s, rest, h => by
    unfold cut_line at h
    by_cases hc : c = '\n'
    · rw [if_pos hc] at h
      simp only [Option.some.injEq] at h
      rw [← h]
      simp
    · rw [if_neg hc] at h
      have := cut_line_length s rest h
      simp only [List.length_cons]
      omega

theorem getline_rest (input : InputStream) (line : List Char) :
    (getline input line).1.rest.length ≤ input.rest.length ∧
    (input.good = true → (getline input line).1.good = true →
      (getline input line).1.rest.length < input.rest.length) := by
  unfold getline
  cases hg : input.good with
  | false => simp
  | true =>
    simp only [Bool.not_true, Bool.false_eq_true, if_false]
    cases hcut : cut_line input.rest with
    | mk text tail =>
      cases tail with
      | none => simp [InputStream.good]
      | some rest =>
        have := cut_line_length input.rest rest (by rw [hcut])
        simp only
        exact ⟨by omega, fun _ _ => this⟩

/-- More rounds than the input has characters change nothing: the loop of
`read_landmark_graph` has stopped before. -/
theorem read_lines_rounds (catalog : Catalog) :
    ∀ (rounds extra : Nat) (input : InputStream) (line : List Char) (graph : LandmarkGraph),
      (input.good = true → input.rest.length + 1 ≤ rounds) →
      read_lines catalog (rounds + extra) input line graph
        = read_lines catalog rounds input line graph
  | 0, extra, input, line, graph, h => by
    have hg : input.good = false := by
      cases hgood : input.good with
      | false => rfl
      | true => have := h hgood; omega
    cases extra with
    | zero => rfl
    | succ k =>
      rw [Nat.zero_add]
      unfold read_lines
      simp [hg]
  | rounds + 1, extra, input, line, graph, h => by
    have hadd : rounds + 1 + extra = (rounds + extra) + 1 := by omega
    rw [hadd]
    unfold read_lines
    by_cases hcond : (input.good && decide (str_find line "\x7d".toList = npos)) = true
    · rw [if_pos hcond, if_pos hcond]
      have hg : input.good = true := by
        rw [Bool.and_eq_true] at hcond
        exact hcond.1
      have hnext : (getline input line).1.good = true →
          (getline input line).1.rest.length + 1 ≤ rounds := by
        intro hgn
        have := (getline_rest input line).2 hg hgn
        have := h hg
        omega
      cases hstep : read_line catalog line graph with
      | error e => rfl
      | ok graph1 =>
        exact read_lines_rounds catalog rounds extra (getline input line).1
          (getline input line).2 graph1 hnext
    · rw [if_neg hcond, if_neg hcond]

theorem read_landmark_graph_rounds (catalog : Catalog) (input : InputStream)
    (graph : LandmarkGraph) (extra : Nat) :
    read_lines catalog (input.rest.length + 1 + extra)
        (getline (getline input []).1 (getline input []).2).1
        (getline (getline input []).1 (getline input []).2).2 graph
      = read_lines catalog (input.rest.length + 1)
        (getline (getline input []).1 (getline input []).2).1
        (getline (getline input []).1 (getline input []).2).2 graph := by
  apply read_lines_rounds
  intro _
  have h1 := (getline_rest input []).1
  have h2 := (getline_rest (getline input []).1 (getline input []).2).1
  omega

/-! ## `read_node`: lemmas -/

theorem decide_ne_of_eq {a b : Nat} (h : a = b) : decide (a ≠ b) = false := by
  simp [h]

theorem decide_ne_of_ne {a b : Nat} (h : a ≠ b) : decide (a ≠ b) = true := by
  simp [h]

theorem eq_of_decide_ne {a b : Nat} (h : false = decide (a ≠ b)) : a = b := by
  by_contra hne
  simp [hne] at h

theorem read_facts_disjunctive {line : List Char} (catalog : Catalog)
    (hd : str_find line " | ".toList ≠ npos) :
    read_facts line catalog =
      read_tokens line catalog (get_positions line " | ".toList)
        (List.range ((get_positions line " | ".toList).length + 1)) [] := by
  unfold read_facts
  rw [decide_ne_of_ne hd]
  rfl

theorem read_facts_conjunctive {line : List Char} (catalog : Catalog)
    (hd : str_find line " | ".toList = npos) (hc : str_find line " & ".toList ≠ npos) :
    read_facts line catalog =
      read_tokens line catalog (get_positions line " & ".toList)
        (List.range ((get_positions line " & ".toList).length + 1)) [] := by
  unfold read_facts
  rw [decide_ne_of_eq hd, decide_ne_of_ne hc]
  rfl

theorem read_facts_single {line : List Char} (catalog : Catalog)
    (hd : str_find line " | ".toList = npos) (hc : str_find line " & ".toList = npos) :
    read_facts line catalog =
      (simple_name line >>= fun name =>
        find_facts catalog name >>= fun ij => push_fact catalog [] ij.1 ij.2) := by
  unfold read_facts
  rw [decide_ne_of_eq hd, decide_ne_of_eq hc]
  rfl

theorem push_fact_ok {catalog : Catalog} {name : List Char} {ij : Int × Int}
    (facts : List FactPair) (h : find_facts catalog name = .ok ij) :
    ∃ f, push_fact catalog facts ij.1 ij.2 = .ok (facts ++ [f]) := by
  unfold push_fact
  by_cases h1 : 0 ≤ ij.1 ∧ 0 ≤ ij.2
  · rw [if_pos h1]; exact ⟨_, rfl⟩
  · rw [if_neg h1]
    by_cases h2 : ij.1 < 0
    · rw [if_pos h2]; exact ⟨_, rfl⟩
    · rw [if_neg h2]
      have h3 : ij.2 < 0 := by omega
      rw [if_pos h3]
      cases catalog with
      | nil =>
        have : find_facts [] name = .ok (-1, -1) := rfl
        rw [this] at h
        cases h
        exact absurd (by decide) h2
      | cons names0 rest => exact ⟨_, rfl⟩

theorem get_positions_ne_nil (line sub : List Char) (h : str_find line sub ≠ npos) :
    get_positions line sub ≠ [] := by
  unfold get_positions get_positions_loop
  have h1 : str_find_from line sub 0 ≠ npos := h
  rw [if_pos h1]
  exact List.cons_ne_nil _ _

theorem token_at_error {line : List Char} {positions : List Nat} {pos : Nat} {e : Fault}
    (hne : positions ≠ []) (hpos : pos ≤ positions.length)
    (h : token_at line positions pos = .error e) : e = .out_of_range := by
  unfold token_at at h
  simp only [List.get?_eq_getElem?] at h
  by_cases h0 : pos = 0
  · rw [if_pos h0] at h
    cases positions with
    | nil => exact absurd rfl hne
    | cons p ps =>
      simp only [List.getElem?_cons_zero] at h
      exact str_substr_error h
  · rw [if_neg h0] at h
    have hlt : pos - 1 < positions.length := by omega
    rw [List.getElem?_eq_getElem hlt] at h
    simp only at h
    by_cases h1 : pos < positions.length
    · rw [if_pos h1, List.getElem?_eq_getElem h1] at h
      exact str_substr_error h
    · rw [if_neg h1] at h
      exact str_substr_error h

theorem read_tokens_error {line : List Char} {catalog : Catalog} {positions : List Nat}
    (hne : positions ≠ []) :
    ∀ (rounds : List Nat) (facts : List FactPair) (e : Fault),
      (∀ pos ∈ rounds, pos ≤ positions.length) →
      read_tokens line catalog positions rounds facts = .error e → e = .out_of_range
  | [], _, _, _, h => by cases h
  | pos :: rest, facts, e, hle, h => by
    unfold read_tokens at h
    cases htok : token_at line positions pos with
    | error e1 =>
      rw [htok] at h
      cases h
      exact token_at_error hne (hle pos (List.mem_cons_self _ _)) htok
    | ok name =>
      rw [htok] at h
      simp only [bind, Except.bind] at h
      cases hff : find_facts catalog name with
      | error e2 =>
        rw [hff] at h
        cases h
        exact find_facts_error hff
      | ok ij =>
        rw [hff] at h
        obtain ⟨f, hf⟩ := push_fact_ok facts hff
        simp only at h
        rw [hf] at h
        exact read_tokens_error hne rest _ e
          (fun p hp => hle p (List.mem_cons_of_mem _ hp)) h

theorem simple_name_error {line : List Char} {e : Fault}
    (h : simple_name line = .error e) : e = .out_of_range := by
  unfold simple_name at h
  split at h <;> exact str_substr_error h

theorem read_facts_simple {line : List Char} (catalog : Catalog)
    (hd : str_find line " | ".toList = npos) (hc : str_find line " & ".toList = npos) :
    read_facts line catalog = .error .out_of_range ∨
      ∃ f, read_facts line catalog = .ok [f] := by
  rw [read_facts_single catalog hd hc]
  cases hn : simple_name line with
  | error e =>
    left
    rw [simple_name_error hn]
    rfl
  | ok name =>
    simp only [bind, Except.bind]
    cases hff : find_facts catalog name with
    | error e =>
      left
      rw [find_facts_error hff]
    | ok ij =>
      right
      obtain ⟨f, hf⟩ := push_fact_ok [] hff
      exact ⟨f, hf⟩

theorem read_facts_error {line : List Char} {catalog : Catalog} {e : Fault}
    (h : read_facts line catalog = .error e) : e = .out_of_range := by
  by_cases hd : str_find line " | ".toList = npos
  · by_cases hc : str_find line " & ".toList = npos
    · rcases read_facts_simple catalog hd hc with h1 | ⟨f, h1⟩
      · rw [h1] at h
        cases h
        rfl
      · rw [h1] at h
        cases h
    · rw [read_facts_conjunctive catalog hd hc] at h
      exact read_tokens_error (get_positions_ne_nil _ _ hc) _ _ e
        (fun p hp => by have := List.mem_range.mp hp; omega) h
  · rw [read_facts_disjunctive catalog hd] at h
    exact read_tokens_error (get_positions_ne_nil _ _ hd) _ _ e
      (fun p hp => by have := List.mem_range.mp hp; omega) h

theorem read_landmark_ok {line : List Char} {catalog : Catalog} {lm : Landmark}
    (h : read_landmark line catalog = .ok lm) :
    read_facts line catalog = .ok lm.facts ∧
      lm.disjunctive = decide (str_find line " | ".toList ≠ npos) ∧
      lm.conjunctive = decide (str_find line " & ".toList ≠ npos) ∧
      lm.is_true_in_goal = decide (str_find line "style=filled".toList ≠ npos) := by
  unfold read_landmark at h
  cases hf : read_facts line catalog with
  | error e => rw [hf] at h; cases h
  | ok facts =>
    rw [hf] at h
    simp only [bind, Except.bind] at h
    split at h
    · cases h
    · cases h
      exact ⟨rfl, rfl, rfl, rfl⟩

theorem read_landmark_error {line : List Char} {catalog : Catalog} {e : Fault}
    (h : read_landmark line catalog = .error e) : e = .out_of_range := by
  unfold read_landmark at h
  cases hf : read_facts line catalog with
  | error e1 =>
    rw [hf] at h
    cases h
    exact read_facts_error hf
  | ok facts =>
    rw [hf] at h
    simp only [bind, Except.bind] at h
    split at h
    · rename_i e2 hs
      cases h
      exact str_substr_error hs
    · cases h

theorem read_landmark_facts_ne_nil {line : List Char} {catalog : Catalog} {lm : Landmark}
    (h : read_landmark line catalog = .ok lm)
    (hsimple : lm.disjunctive = false ∧ lm.conjunctive = false) :
    ∃ f, lm.facts = [f] := by
  obtain ⟨hf, hd, hc, _⟩ := read_landmark_ok h
  rw [hsimple.1] at hd
  rw [hsimple.2] at hc
  have hd1 : str_find line " | ".toList = npos := eq_of_decide_ne hd
  have hc1 : str_find line " & ".toList = npos := eq_of_decide_ne hc
  rcases read_facts_simple catalog hd1 hc1 with h1 | ⟨f, h1⟩
  · rw [h1] at hf; cases hf
  · rw [h1] at hf
    exact ⟨f, (Except.ok.inj hf).symm⟩

theorem insert_landmark_ok {line : List Char} {catalog : Catalog} {lm : Landmark}
    (graph : LandmarkGraph) (h : read_landmark line catalog = .ok lm) :
    insert_landmark graph lm = .ok graph ∨
      insert_landmark graph lm = .ok (add_landmark graph lm) := by
  unfold insert_landmark
  cases hd : lm.disjunctive with
  | true =>
    simp only [if_true]
    cases contains_identical_disjunctive_landmark graph lm.facts <;> simp
  | false =>
    simp only [Bool.false_eq_true, if_false]
    cases hc : lm.conjunctive with
    | true =>
      simp only [if_true]
      cases lm.facts.all (contains_landmark graph) <;> simp
    | false =>
      simp only [Bool.false_eq_true, if_false]
      obtain ⟨f, hf⟩ := read_landmark_facts_ne_nil h ⟨hd, hc⟩
      rw [hf]
      simp only
      cases contains_simple_landmark graph f <;> simp

theorem read_node_of_landmark {line : List Char} {catalog : Catalog} {lm : Landmark}
    (graph graph1 : LandmarkGraph) (h : read_landmark line catalog = .ok lm)
    (hins : insert_landmark graph lm = .ok graph1) :
    read_node line catalog graph = .ok (lm, graph1) := by
  unfold read_node
  rw [h]
  simp only [bind, Except.bind]
  rw [hins]
  rfl

theorem read_facts_short_line {line : List Char} (catalog : Catalog)
    (hlabel : str_find line "label=".toList = npos) (hshort : line.length < 6) :
    read_facts line catalog = .error .out_of_range := by
  have hsub : ∀ n, str_substr line (sz_add npos 7) n = .error .out_of_range := by
    intro n
    unfold str_substr
    have : sz_add npos 7 = 6 := by decide
    rw [this, if_pos hshort]
  have htok : ∀ positions : List Nat, positions ≠ [] → ∀ rest,
      read_tokens line catalog positions (0 :: rest) [] = .error .out_of_range := by
    intro positions hne rest
    unfold read_tokens
    have : token_at line positions 0 = .error .out_of_range := by
      unfold token_at
      cases positions with
      | nil => exact absurd rfl hne
      | cons p ps =>
        simp only [hlabel, if_true, List.get?_eq_getElem?, List.getElem?_cons_zero]
        exact hsub _
    rw [this]
    rfl
  by_cases hd : str_find line " | ".toList = npos
  · by_cases hc : str_find line " & ".toList = npos
    · rw [read_facts_single catalog hd hc]
      have hname : simple_name line = .error .out_of_range := by
        unfold simple_name
        simp only [hlabel]
        split <;> exact hsub _
      rw [hname]
      rfl
    · rw [read_facts_conjunctive catalog hd hc, List.range_succ_eq_map]
      exact htok _ (get_positions_ne_nil _ _ hc) _
  · rw [read_facts_disjunctive catalog hd, List.range_succ_eq_map]
    exact htok _ (get_positions_ne_nil _ _ hd) _

theorem mem_value_entries (i : Nat) :
    ∀ (names : List (List Char)) (j a b : Nat) (n : List Char),
      (a, b, n) ∈ value_entries i names j ↔ a = i ∧ j ≤ b ∧ names[b - j]? = some n
  | [], j, a, b, n => by simp [value_entries]
  | tmp :: rest, j, a, b, n => by
    unfold value_entries
    rw [List.mem_cons, mem_value_entries i rest (j + 1) a b n]
    constructor
    · rintro (h | ⟨ha, hb, hn⟩)
      · simp only [Prod.mk.injEq] at h
        obtain ⟨ha, hb, hn⟩ := h
        subst hb
        simp [ha, hn]
      · refine ⟨ha, by omega, ?_⟩
        have : b - j = (b - (j + 1)) + 1 := by omega
        rw [this, List.getElem?_cons_succ]
        exact hn
    · rintro ⟨ha, hb, hn⟩
      by_cases hbj : b = j
      · left
        subst hbj
        simp only [Nat.sub_self, List.getElem?_cons_zero, Option.some.injEq] at hn
        simp [ha, hn]
      · right
        refine ⟨ha, by omega, ?_⟩
        have : b - j = (b - (j + 1)) + 1 := by omega
        rw [this, List.getElem?_cons_succ] at hn
        exact hn

theorem mem_catalog_entries :
    ∀ (catalog : Catalog) (i a b : Nat) (n : List Char),
      (a, b, n) ∈ catalog_entries catalog i ↔
        i ≤ a ∧ ∃ names, catalog[a - i]? = some names ∧ names[b]? = some n
  | [], i, a, b, n => by simp [catalog_entries]
  | names0 :: rest, i, a, b, n => by
    unfold catalog_entries
    rw [List.mem_append, mem_value_entries, mem_catalog_entries rest (i + 1) a b n]
    constructor
    · rintro (⟨ha, _, hn⟩ | ⟨ha, names, hnames, hn⟩)
      · subst ha
        exact ⟨le_refl _, names0, by simp, hn⟩
      · refine ⟨by omega, names, ?_, hn⟩
        have : a - i = (a - (i + 1)) + 1 := by omega
        rw [this, List.getElem?_cons_succ]
        exact hnames
    · rintro ⟨ha, names, hnames, hn⟩
      by_cases hai : a = i
      · left
        subst hai
        simp only [Nat.sub_self, List.getElem?_cons_zero, Option.some.injEq] at hnames
        subst hnames
        exact ⟨rfl, Nat.zero_le _, hn⟩
      · right
        refine ⟨by omega, names, ?_, hn⟩
        have : a - i = (a - (i + 1)) + 1 := by omega
        rw [this, List.getElem?_cons_succ] at hnames
        exact hnames

/-- The entries of the catalog are exactly its facts with their names. -/
theorem mem_entries_iff (catalog : Catalog) (v d : Nat) (name : List Char) :
    (v, d, name) ∈ entries catalog ↔ fact_name catalog (v : Int) (d : Int) = some name := by
  unfold entries fact_name
  rw [mem_catalog_entries]
  simp only [Nat.zero_le, true_and, Nat.sub_zero, Int.ofNat_nonneg, and_self, if_true,
    Int.toNat_ofNat, List.get?_eq_getElem?]
  cases hcat : catalog[v]? with
  | none => simp
  | some names => simp

/-! ## `read_node` and `read_landmark_graph`: the claims -/

/-- The graph `read_landmark_graph` returns is the local graph `g`, which no
line of the document ever reaches. -/
theorem read_landmark_graph_returned (catalog : Catalog) (input : InputStream)
    (graph : LandmarkGraph) (out : ReadOutcome)
    (h : read_landmark_graph catalog input graph = .ok out) :
    out.returned = LandmarkGraph.empty := by
  unfold read_landmark_graph at h
  cases hopen : input.is_open with
  | false =>
    rw [hopen] at h
    simp only [Bool.false_eq_true, if_false, pure, Except.pure] at h
    cases h
    rfl
  | true =>
    rw [hopen] at h
    simp only [if_true, bind, Except.bind, pure, Except.pure] at h
    split at h
    · cases h
    · cases h
      rfl

/-- C4, evaluated on the code: for the graph holding the single SIMPLE
landmark `{(0, 0)}`, named `handempty()`, `dump_landmark_graph` writes the
three-line document and `read_landmark_graph` on it inserts the landmark into
the graph passed by reference, while the graph it returns has no landmark at
all. -/
theorem read_landmark_graph_returns_empty :
    dump_landmark_graph [["handempty()".toList]] (fun _ => false)
        (add_landmark LandmarkGraph.empty ⟨[⟨0, 0⟩], false, false, false⟩)
      = .ok "digraph G \x7b\n  lm0 [label=\"handempty()\"];\n\x7d\n".toList ∧
    landmarks_of (add_landmark LandmarkGraph.empty ⟨[⟨0, 0⟩], false, false, false⟩)
      = [⟨[⟨0, 0⟩], false, false, false⟩] ∧
    (read_landmark_graph [["handempty()".toList]]
        (open_stream "digraph G \x7b\n  lm0 [label=\"handempty()\"];\n\x7d\n".toList)
        LandmarkGraph.empty).map (fun out => landmarks_of out.returned) = .ok [] ∧
    (read_landmark_graph [["handempty()".toList]]
        (open_stream "digraph G \x7b\n  lm0 [label=\"handempty()\"];\n\x7d\n".toList)
        LandmarkGraph.empty).map (fun out => landmarks_of out.graph)
      = .ok [⟨[⟨0, 0⟩], false, false, false⟩] := by
  refine ⟨rfl, rfl, rfl, rfl⟩

/-- C8, evaluated on the code: in a catalog whose variable 0 has one value and
whose variable 1 has three, the name `holding(b)` resolves to variable 1 with
the value side unresolved, and the sentinel `read_node` substitutes,
`(1, domainSize(variable 0) + 1) = (1, 2)`, is the real fact named `p(d)`. -/
theorem read_node_sentinel_is_real_fact :
    find_facts [["at(x)".toList], ["clear(b)".toList, "p(c)".toList, "p(d)".toList]]
      "holding(b)".toList = .ok (1, -1) ∧
    (read_landmark "  lm0 [label=\"holding(b)\"];".toList
      [["at(x)".toList], ["clear(b)".toList, "p(c)".toList, "p(d)".toList]]).map
        (fun lm => lm.facts) = .ok [⟨1, 2⟩] ∧
    is_real_fact [["at(x)".toList], ["clear(b)".toList, "p(c)".toList, "p(d)".toList]] ⟨1, 2⟩
      = true ∧
    fact_name [["at(x)".toList], ["clear(b)".toList, "p(c)".toList, "p(d)".toList]] 1 2
      = some "p(d)".toList := by
  refine ⟨rfl, rfl, rfl, rfl⟩

/-- C9, the claim fails as stated: the node line `  lm0 [handempty()];` lacks
`label=`, yet `read_node` does not fail; it slices the name at the
wrapped-around position 6 and inserts a node for the fact `(0, 2)` into the
empty graph. -/
theorem read_node_missing_label_counterexample :
    str_find "  lm0 [handempty()];".toList "label=".toList = npos ∧
    simple_name "  lm0 [handempty()];".toList = .ok "[handempty(".toList ∧
    read_node "  lm0 [handempty()];".toList [["handempty()".toList]] LandmarkGraph.empty
      = .ok (⟨[⟨0, 2⟩], false, false, false⟩,
             ⟨[⟨0, ⟨[⟨0, 2⟩], false, false, false⟩, []⟩]⟩) := by
  refine ⟨rfl, rfl, rfl⟩

/-- C9, amended: `read_node` checks no format. On every line it either fails
with the `std::out_of_range` of `substr`, inserting nothing, or builds a
landmark from the text it sliced and leaves the graph unchanged or with that
one landmark added; a line without `label=` fails in this way when it is
shorter than 6 characters, the wrapped-around start of the name. -/
theorem read_node_unchecked (line : List Char) (catalog : Catalog) (graph : LandmarkGraph) :
    (read_node line catalog graph = .error .out_of_range ∨
      ∃ lm, read_landmark line catalog = .ok lm ∧
        (read_node line catalog graph = .ok (lm, graph) ∨
         read_node line catalog graph = .ok (lm, add_landmark graph lm))) ∧
    (str_find line "label=".toList = npos → line.length < 6 →
      read_node line catalog graph = .error .out_of_range) := by
  constructor
  · cases hlm : read_landmark line catalog with
    | error e =>
      left
      unfold read_node
      rw [hlm, read_landmark_error hlm]
      rfl
    | ok lm =>
      right
      refine ⟨lm, rfl, ?_⟩
      rcases insert_landmark_ok graph hlm with h | h
      · left; exact read_node_of_landmark graph graph hlm h
      · right; exact read_node_of_landmark graph _ hlm h
  · intro hlabel hshort
    unfold read_node read_landmark
    rw [read_facts_short_line catalog hlabel hshort]
    rfl

/-- The line `lm0`, without `label=` and shorter than 6 characters. -/
theorem read_node_unchecked_witness :
    read_node "lm0".toList [["handempty()".toList]] LandmarkGraph.empty
      = .error .out_of_range :=
  (read_node_unchecked "lm0".toList [["handempty()".toList]] LandmarkGraph.empty).2
    (by decide) (by decide)

/-- C10: for a node line without separator from which `read_node` builds the
landmark `lm`, the landmark is SIMPLE with exactly one fact `f`; when the
graph already holds a SIMPLE landmark for `f`, `read_node` returns the graph
unchanged, and when it holds none, `read_node` returns the graph with exactly
one node appended, carrying `lm`. -/
theorem read_node_simple_dedup (line : List Char) (catalog : Catalog) (graph : LandmarkGraph)
    (lm : Landmark)
    (hd : str_find line " | ".toList = npos) (hc : str_find line " & ".toList = npos)
    (hlm : read_landmark line catalog = .ok lm) :
    ∃ f, lm.facts = [f] ∧ is_simple lm = true ∧
      (contains_simple_landmark graph f = true →
        read_node line catalog graph = .ok (lm, graph)) ∧
      (contains_simple_landmark graph f = false →
        ∃ graph1, read_node line catalog graph = .ok (lm, graph1) ∧
          graph1.nodes = graph.nodes ++ [⟨(graph.nodes.length : Int), lm, []⟩] ∧
          graph1.nodes.length = graph.nodes.length + 1) := by
  obtain ⟨_, hdis, hcon, _⟩ := read_landmark_ok hlm
  rw [decide_ne_of_eq hd] at hdis
  rw [decide_ne_of_eq hc] at hcon
  obtain ⟨f, hf⟩ := read_landmark_facts_ne_nil hlm ⟨hdis, hcon⟩
  refine ⟨f, hf, by simp [is_simple, hdis, hcon], ?_, ?_⟩
  · intro hcontains
    apply read_node_of_landmark graph graph hlm
    unfold insert_landmark
    simp [hdis, hcon, hf, hcontains]
  · intro hcontains
    refine ⟨add_landmark graph lm, ?_, rfl, by simp [add_landmark]⟩
    apply read_node_of_landmark graph _ hlm
    unfold insert_landmark
    simp [hdis, hcon, hf, hcontains]

/-- The line `lm5 [label="handempty()"];` read into a graph that already holds
the SIMPLE landmark `{(0, 0)}`: the graph is returned unchanged. -/
theorem read_node_simple_dedup_witness :
    read_node "  lm5 [label=\"handempty()\"];".toList [["handempty()".toList]]
        ⟨[⟨0, ⟨[⟨0, 0⟩], false, false, false⟩, []⟩]⟩
      = .ok (⟨[⟨0, 0⟩], false, false, false⟩,
             ⟨[⟨0, ⟨[⟨0, 0⟩], false, false, false⟩, []⟩]⟩) := by
  obtain ⟨f, hf, _, hskip, _⟩ :=
    read_node_simple_dedup "  lm5 [label=\"handempty()\"];".toList [["handempty()".toList]]
      ⟨[⟨0, ⟨[⟨0, 0⟩], false, false, false⟩, []⟩]⟩ ⟨[⟨0, 0⟩], false, false, false⟩
      (by decide) (by decide) rfl
  have hf0 : f = ⟨0, 0⟩ := by
    simp only [List.cons.injEq, and_true] at hf
    exact hf.symm
  subst hf0
  exact hskip (by decide)

/-! ## Conjunctive landmarks in `read_node` -/

theorem contains_landmark_of_simple {graph : LandmarkGraph} {f : FactPair}
    (h : contains_simple_landmark graph f = true) : contains_landmark graph f = true := by
  unfold contains_simple_landmark at h
  unfold contains_landmark
  rw [List.any_eq_true] at h ⊢
  obtain ⟨n, hn, hprop⟩ := h
  rw [Bool.and_eq_true, decide_eq_true_eq] at hprop
  refine ⟨n, hn, ?_⟩
  rw [decide_eq_true_eq, hprop.2]
  exact List.mem_singleton_self f

/-- C11: for a node line with `" & "` and without `" | "` from which
`read_node` builds the landmark `lm`, the landmark is conjunctive and
`read_node` returns a graph; the node count is unchanged exactly when every
fact of `lm` occurs in some landmark of the graph, and then the graph is
returned as it was; otherwise exactly one node carrying `lm` is appended. In
particular the insertion is skipped when every fact of `lm` is held by a
SIMPLE landmark of the graph. -/
theorem read_node_conjunctive_dedup (line : List Char) (catalog : Catalog)
    (graph : LandmarkGraph) (lm : Landmark)
    (hd : str_find line " | ".toList = npos) (hc : str_find line " & ".toList ≠ npos)
    (hlm : read_landmark line catalog = .ok lm) :
    lm.conjunctive = true ∧ lm.disjunctive = false ∧
    ∃ graph1, read_node line catalog graph = .ok (lm, graph1) ∧
      (graph1.nodes.length = graph.nodes.length ↔
        ∀ f ∈ lm.facts, contains_landmark graph f = true) ∧
      ((∀ f ∈ lm.facts, contains_landmark graph f = true) → graph1 = graph) ∧
      ((¬ ∀ f ∈ lm.facts, contains_landmark graph f = true) →
        graph1.nodes = graph.nodes ++ [⟨(graph.nodes.length : Int), lm, []⟩]) ∧
      ((∀ f ∈ lm.facts, contains_simple_landmark graph f = true) → graph1 = graph) := by
  obtain ⟨_, hdis, hcon, _⟩ := read_landmark_ok hlm
  rw [decide_ne_of_eq hd] at hdis
  rw [decide_ne_of_ne hc] at hcon
  refine ⟨hcon, hdis, ?_⟩
  by_cases hall : ∀ f ∈ lm.facts, contains_landmark graph f = true
  · have hins : insert_landmark graph lm = .ok graph := by
      unfold insert_landmark
      have : lm.facts.all (contains_landmark graph) = true := List.all_eq_true.mpr hall
      simp [hdis, hcon, this]
    refine ⟨graph, read_node_of_landmark graph graph hlm hins, ?_, fun _ => rfl,
      fun hn => absurd hall hn, fun _ => rfl⟩
    exact ⟨fun _ => hall, fun _ => rfl⟩
  · have hins : insert_landmark graph lm = .ok (add_landmark graph lm) := by
      unfold insert_landmark
      have : lm.facts.all (contains_landmark graph) = false := by
        cases hb : lm.facts.all (contains_landmark graph) with
        | false => rfl
        | true => exact absurd (List.all_eq_true.mp hb) hall
      simp [hdis, hcon, this]
    refine ⟨add_landmark graph lm, read_node_of_landmark graph _ hlm hins, ?_,
      fun h => absurd h hall, fun _ => rfl, ?_⟩
    · constructor
      · intro hlen
        simp [add_landmark] at hlen
      · intro h
        exact absurd h hall
    · intro hsimple
      exact absurd (fun f hf => contains_landmark_of_simple (hsimple f hf)) hall

/-- Scenario 5 of the specification: the conjunction of `on(a, b)` and
`on(a, c)` read into a graph that holds both facts as SIMPLE landmarks. -/
theorem read_node_conjunctive_dedup_witness :
    read_node "  lm2 [label=\"on(a, b) & on(a, c)\"];".toList
        [["on(a, b)".toList, "on(a, c)".toList]]
        ⟨[⟨0, ⟨[⟨0, 0⟩], false, false, false⟩, []⟩, ⟨1, ⟨[⟨0, 1⟩], false, false, false⟩, []⟩]⟩
      = .ok (⟨[⟨0, 0⟩, ⟨0, 1⟩], false, true, false⟩,
        ⟨[⟨0, ⟨[⟨0, 0⟩], false, false, false⟩, []⟩,
          ⟨1, ⟨[⟨0, 1⟩], false, false, false⟩, []⟩]⟩) := by
  obtain ⟨_, _, graph1, hread, _, _, _, hsimple⟩ :=
    read_node_conjunctive_dedup "  lm2 [label=\"on(a, b) & on(a, c)\"];".toList
      [["on(a, b)".toList, "on(a, c)".toList]]
      ⟨[⟨0, ⟨[⟨0, 0⟩], false, false, false⟩, []⟩, ⟨1, ⟨[⟨0, 1⟩], false, false, false⟩, []⟩]⟩
      ⟨[⟨0, 0⟩, ⟨0, 1⟩], false, true, false⟩ (by decide) (by decide) rfl
  rw [hread, hsimple (by decide)]

/-! ## Safety of the table accesses -/

theorem in_table_of_task {reached : List (List Bool)} {domains : List Nat}
    (htable : table_covers_task reached domains = true) {f : FactPair}
    (hf : fact_of_task domains f = true) : in_table reached f = true := by
  unfold fact_of_task at hf
  simp only [Bool.and_eq_true, decide_eq_true_eq, List.get?_eq_getElem?] at hf
  obtain ⟨⟨hv, hd⟩, hdom⟩ := hf
  cases hget : domains[f.var.toNat]? with
  | none => rw [hget] at hdom; simp at hdom
  | some dom =>
    rw [hget] at hdom
    simp only [decide_eq_true_eq] at hdom
    obtain ⟨hlt, hval⟩ := List.getElem?_eq_some_iff.mp hget
    unfold table_covers_task at htable
    rw [List.all_eq_true] at htable
    have h1 := htable f.var.toNat (List.mem_range.mpr hlt)
    rw [List.all_eq_true] at h1
    have hD : domains.getD f.var.toNat 0 = dom := by
      rw [List.getD_eq_getElem?_getD, hget]
      rfl
    rw [hD] at h1
    have h2 := h1 f.value.toNat (List.mem_range.mpr hdom)
    rw [Int.toNat_of_nonneg hv, Int.toNat_of_nonneg hd] at h2
    exact h2

theorem covers_of_task {reached : List (List Bool)} {domains : List Nat}
    (htable : table_covers_task reached domains = true) {op : Operator}
    (hop : operator_of_task domains op = true) : covers reached op = true := by
  unfold operator_of_task at hop
  unfold covers
  simp only [Bool.and_eq_true, List.all_eq_true] at hop ⊢
  refine ⟨fun p hp => in_table_of_task htable (hop.1 p hp), fun e he => ?_⟩
  obtain ⟨hfact, hconds⟩ := hop.2 e he
  exact ⟨in_table_of_task htable hfact, fun c hc => in_table_of_task htable (hconds c hc)⟩

/-- C17: when the reached table is non-empty and has an entry for every
(variable, value) of the task, `possibly_reaches_lm` returns a boolean for
every operator of the task and every landmark: no access `reached[var][value]`
is out of range and neither assertion fails, each of which would be a fault
of the run. -/
theorem possibly_reaches_lm_safe (domains : List Nat) (op : Operator)
    (reached : List (List Bool)) (landmark : Landmark)
    (hne : reached ≠ []) (htable : table_covers_task reached domains = true)
    (hop : operator_of_task domains op = true) :
    ∃ b, possibly_reaches_lm op reached landmark = .ok b ∧
      (∃ p, preconditions_reached op.preconditions reached = .ok p) ∧
      (∀ e ∈ op.effects, ∃ row, row_at reached e.fact.var = .ok row ∧ row.isEmpty = false) ∧
      (∀ e ∈ op.effects, ∃ fires, _possibly_fires e.conditions reached = .ok fires) := by
  have hcov := covers_of_task htable hop
  refine ⟨_, possibly_reaches_lm_eq op reached landmark hne hcov, ?_, ?_, ?_⟩
  · unfold covers at hcov
    rw [Bool.and_eq_true] at hcov
    exact ⟨_, preconditions_reached_eq _ hcov.1⟩
  · intro e he
    unfold covers at hcov
    simp only [Bool.and_eq_true, List.all_eq_true] at hcov
    exact row_at_of_in_table (hcov.2 e he).1
  · intro e he
    unfold covers at hcov
    simp only [Bool.and_eq_true, List.all_eq_true] at hcov
    exact ⟨_, _possibly_fires_eq _ (List.all_eq_true.mpr (hcov.2 e he).2)⟩

/-- A task with two variables of domain sizes 1 and 2 and a fully populated
table. -/
theorem possibly_reaches_lm_safe_witness :
    ∃ b, possibly_reaches_lm
        { preconditions := [⟨0, 0⟩], effects := [⟨⟨1, 0⟩, [⟨1, 1⟩]⟩, ⟨⟨1, 1⟩, []⟩],
          is_axiom_flag := false, id := 0 }
        [[true], [false, false]]
        { facts := [⟨1, 0⟩, ⟨5, 7⟩], disjunctive := true, conjunctive := false,
          is_true_in_goal := false } = .ok b :=
  let ⟨b, hb, _⟩ := possibly_reaches_lm_safe [1, 2]
    { preconditions := [⟨0, 0⟩], effects := [⟨⟨1, 0⟩, [⟨1, 1⟩]⟩, ⟨⟨1, 1⟩, []⟩],
      is_axiom_flag := false, id := 0 }
    [[true], [false, false]]
    { facts := [⟨1, 0⟩, ⟨5, 7⟩], disjunctive := true, conjunctive := false,
      is_true_in_goal := false }
    (by decide) (by decide) (by decide)
  ⟨b, hb⟩

/-! ## Edge lines -/

/-- C18, evaluated on the code: `read_edge` applied to the line `dump_edge`
writes for the nodes 0 and 1 returns REASONABLE for each of the four edge
types; the label it slices is `nec`, `gn`, `n` or `r` without the quotes,
which it compares with the quoted texts. -/
theorem read_edge_always_reasonable :
    (cut_line (dump_edge 0 1 .NECESSARY)).1 = "      lm0 -> lm1 [label=\"nec\"];".toList ∧
    read_edge (cut_line (dump_edge 0 1 .NECESSARY)).1 = .ok .REASONABLE ∧
    read_edge (cut_line (dump_edge 0 1 .GREEDY_NECESSARY)).1 = .ok .REASONABLE ∧
    read_edge (cut_line (dump_edge 0 1 .NATURAL)).1 = .ok .REASONABLE ∧
    read_edge (cut_line (dump_edge 0 1 .REASONABLE)).1 = .ok .REASONABLE ∧
    str_substr "      lm0 -> lm1 [label=\"nec\"];".toList
      (sz_add (str_find "      lm0 -> lm1 [label=\"nec\"];".toList "label=".toList) 7)
      (sz_sub (sz_sub (str_find "      lm0 -> lm1 [label=\"nec\"];".toList "]".toList)
        (str_find "      lm0 -> lm1 [label=\"nec\"];".toList "label=".toList)) 8)
      = .ok "nec".toList := by
  refine ⟨rfl, rfl, rfl, rfl, rfl, rfl⟩

/-! ## Operators and axioms by id -/

theorem get_operators_at_ok {task : Task} {index : Int} {op : Operator}
    (h : get_operators_at task index = .ok op) :
    0 ≤ index ∧ op.id = index ∧ op.is_axiom_flag = false := by
  unfold get_operators_at at h
  by_cases h0 : 0 ≤ index
  · rw [if_pos h0] at h
    cases hget : task.operators.get? index.toNat with
    | none => rw [hget] at h; cases h
    | some body =>
      rw [hget] at h
      cases h
      exact ⟨h0, rfl, rfl⟩
  · rw [if_neg h0] at h; cases h

theorem get_axioms_at_ok {task : Task} {index : Int} {op : Operator}
    (h : get_axioms_at task index = .ok op) :
    0 ≤ index ∧ op.id = index ∧ op.is_axiom_flag = true := by
  unfold get_axioms_at at h
  by_cases h0 : 0 ≤ index
  · rw [if_pos h0] at h
    cases hget : task.axioms.get? index.toNat with
    | none => rw [hget] at h; cases h
    | some body =>
      rw [hget] at h
      cases h
      exact ⟨h0, rfl, rfl⟩
  · rw [if_neg h0] at h; cases h

theorem operator_id_of_operator {task : Task} {index : Int} {op : Operator}
    (h : get_operators_at task index = .ok op) :
    get_operator_or_axiom_id op = index ∧
      get_operator_or_axiom task (get_operator_or_axiom_id op) = .ok op := by
  obtain ⟨h0, hid, hflag⟩ := get_operators_at_ok h
  have hk : get_operator_or_axiom_id op = index := by
    unfold get_operator_or_axiom_id
    rw [hflag, hid]
    rfl
  refine ⟨hk, ?_⟩
  rw [hk]
  unfold get_operator_or_axiom
  rw [if_neg (by omega)]
  exact h

theorem operator_id_of_axiom {task : Task} {index : Int} {op : Operator}
    (h : get_axioms_at task index = .ok op) :
    get_operator_or_axiom_id op = -index - 1 ∧
      get_operator_or_axiom task (get_operator_or_axiom_id op) = .ok op := by
  obtain ⟨h0, hid, hflag⟩ := get_axioms_at_ok h
  have hk : get_operator_or_axiom_id op = -index - 1 := by
    unfold get_operator_or_axiom_id
    rw [hflag, hid]
    rfl
  refine ⟨hk, ?_⟩
  rw [hk]
  unfold get_operator_or_axiom
  rw [if_pos (by omega)]
  have : -(-index - 1) - 1 = index := by omega
  rw [this]
  exact h

/-- C19: for every task, an operator at index `i` is encoded as `i`, which is
not negative, an axiom at index `i` as `-i - 1`, which is negative, and
`get_operator_or_axiom` applied to the encoding gives the operator or axiom
back; the encoding is injective over the operators and axioms of the task
together; and for every integer `k` at which `get_operator_or_axiom` is in
range, the id of what it returns is `k`. -/
theorem operator_or_axiom_id_round_trip (task : Task) :
    (∀ i op, get_operators_at task i = .ok op →
      get_operator_or_axiom_id op = i ∧ 0 ≤ get_operator_or_axiom_id op ∧
      get_operator_or_axiom task (get_operator_or_axiom_id op) = .ok op) ∧
    (∀ i op, get_axioms_at task i = .ok op →
      get_operator_or_axiom_id op = -i - 1 ∧ get_operator_or_axiom_id op < 0 ∧
      get_operator_or_axiom task (get_operator_or_axiom_id op) = .ok op) ∧
    (∀ op1 op2,
      (∃ i, get_operators_at task i = .ok op1 ∨ get_axioms_at task i = .ok op1) →
      (∃ i, get_operators_at task i = .ok op2 ∨ get_axioms_at task i = .ok op2) →
      get_operator_or_axiom_id op1 = get_operator_or_axiom_id op2 → op1 = op2) ∧
    (∀ k op, get_operator_or_axiom task k = .ok op → get_operator_or_axiom_id op = k) := by
  have hop : ∀ i op, get_operators_at task i = .ok op →
      get_operator_or_axiom_id op = i ∧ 0 ≤ get_operator_or_axiom_id op ∧
      get_operator_or_axiom task (get_operator_or_axiom_id op) = .ok op := by
    intro i op h
    obtain ⟨hk, hback⟩ := operator_id_of_operator h
    have := (get_operators_at_ok h).1
    exact ⟨hk, by omega, hback⟩
  have hax : ∀ i op, get_axioms_at task i = .ok op →
      get_operator_or_axiom_id op = -i - 1 ∧ get_operator_or_axiom_id op < 0 ∧
      get_operator_or_axiom task (get_operator_or_axiom_id op) = .ok op := by
    intro i op h
    obtain ⟨hk, hback⟩ := operator_id_of_axiom h
    have := (get_axioms_at_ok h).1
    exact ⟨hk, by omega, hback⟩
  have hback : ∀ op, (∃ i, get_operators_at task i = .ok op ∨ get_axioms_at task i = .ok op) →
      get_operator_or_axiom task (get_operator_or_axiom_id op) = .ok op := by
    rintro op ⟨i, h | h⟩
    · exact (hop i op h).2.2
    · exact (hax i op h).2.2
  refine ⟨hop, hax, ?_, ?_⟩
  · intro op1 op2 h1 h2 heq
    have e1 := hback op1 h1
    have e2 := hback op2 h2
    rw [heq, e2] at e1
    exact (Except.ok.inj e1).symm
  · intro k op h
    unfold get_operator_or_axiom at h
    by_cases hk : k < 0
    · rw [if_pos hk] at h
      have := (hax _ op h).1
      omega
    · rw [if_neg hk] at h
      exact (hop _ op h).1

/-- A task with two operators and one axiom: the second operator has id 1
and the axiom has id -1, and both ids lead back to them. -/
theorem operator_or_axiom_id_round_trip_witness :
    ( get_operator_or_axiom ⟨[([], []), ([⟨0, 0⟩], [])], [([⟨1, 0⟩], [])]⟩ 1).map
        get_operator_or_axiom_id = .ok 1 ∧
    ( get_operator_or_axiom ⟨[([], []), ([⟨0, 0⟩], [])], [([⟨1, 0⟩], [])]⟩ (-1)).map
        get_operator_or_axiom_id = .ok (-1) :=
  ⟨by
    have h := (operator_or_axiom_id_round_trip
      ⟨[([], []), ([⟨0, 0⟩], [])], [([⟨1, 0⟩], [])]⟩).2.2.2 1
        ⟨[⟨0, 0⟩], [], false, 1⟩ rfl
    rw [show get_operator_or_axiom ⟨[([], []), ([⟨0, 0⟩], [])], [([⟨1, 0⟩], [])]⟩ 1
      = .ok ⟨[⟨0, 0⟩], [], false, 1⟩ from rfl]
    exact congrArg Except.ok h,
   by
    have h := (operator_or_axiom_id_round_trip
      ⟨[([], []), ([⟨0, 0⟩], [])], [([⟨1, 0⟩], [])]⟩).2.2.2 (-1)
        ⟨[⟨1, 0⟩], [], true, 0⟩ (by decide)
    rw [show get_operator_or_axiom ⟨[([], []), ([⟨0, 0⟩], [])], [([⟨1, 0⟩], [])]⟩ (-1)
      = .ok ⟨[⟨1, 0⟩], [], true, 0⟩ from by decide]
    exact congrArg Except.ok h⟩

/-! ## Intersection of two maps -/

theorem map_find_eq_none {m : List (Int × Int)} {key : Int} :
    map_find m key = none ↔ key ∉ m.map Prod.fst := by
  induction m with
  | nil => simp [map_find]
  | cons entry rest ih =>
    unfold map_find
    by_cases h : entry.1 = key
    · rw [if_pos h]
      simp [h]
    · rw [if_neg h, ih]
      simp only [List.map_cons, List.mem_cons, not_or]
      exact ⟨fun hr => ⟨fun hk => h hk.symm, hr⟩, fun hr => hr.2⟩

theorem map_find_eq_some {m : List (Int × Int)} (hm : unique_keys m) (key value : Int) :
    map_find m key = some value ↔ (key, value) ∈ m := by
  induction m with
  | nil => simp [map_find]
  | cons entry rest ih =>
    unfold unique_keys at hm ih
    rw [List.map_cons, List.nodup_cons] at hm
    unfold map_find
    by_cases h : entry.1 = key
    · rw [if_pos h]
      constructor
      · intro hv
        rw [Option.some.injEq] at hv
        rw [← h, ← hv]
        exact List.mem_cons_self _ _
      · intro hmem
        rcases List.mem_cons.mp hmem with heq | hrest
        · rw [← heq]
        · exfalso
          apply hm.1
          rw [h]
          exact List.mem_map.mpr ⟨(key, value), hrest, rfl⟩
    · rw [if_neg h, ih hm.2]
      constructor
      · intro hmem; exact List.mem_cons_of_mem _ hmem
      · intro hmem
        rcases List.mem_cons.mp hmem with heq | hrest
        · exfalso; apply h; rw [← heq]
        · exact hrest

theorem intersect_loop_eq (b : List (Int × Int)) :
    ∀ (a result : List (Int × Int)), unique_keys a →
      (∀ key ∈ a.map Prod.fst, key ∉ result.map Prod.fst) →
      intersect_loop a b result
        = result ++ a.filter (fun p => decide (map_find b p.1 = some p.2))
  | [], result, _, _ => by simp [intersect_loop]
  | pair_a :: rest, result, ha, hdisj => by
    unfold unique_keys at ha
    rw [List.map_cons, List.nodup_cons] at ha
    have hrest : ∀ key ∈ rest.map Prod.fst, key ∉ result.map Prod.fst :=
      fun key hk => hdisj key (List.mem_cons_of_mem _ hk)
    unfold intersect_loop
    cases hfind : map_find b pair_a.1 with
    | none =>
      simp only
      rw [intersect_loop_eq b rest result ha.2 hrest, List.filter_cons]
      simp [hfind]
    | some value =>
      simp only
      by_cases hv : value = pair_a.2
      · rw [if_pos hv]
        have hins : map_insert result pair_a = result ++ [pair_a] := by
          unfold map_insert
          have : map_find result pair_a.1 = none :=
            map_find_eq_none.mpr (hdisj pair_a.1 (List.mem_cons_self _ _))
          rw [this]
        rw [hins, intersect_loop_eq b rest (result ++ [pair_a]) ha.2, List.filter_cons]
        · simp [hfind, hv]
        · intro key hk
          rw [List.map_append, List.mem_append, not_or]
          refine ⟨hrest key hk, ?_⟩
          simp only [List.map_cons, List.map_nil, List.mem_singleton]
          intro hkey
          apply ha.1
          rw [← hkey]
          exact hk
      · rw [if_neg hv, intersect_loop_eq b rest result ha.2 hrest, List.filter_cons]
        have : (some value = some pair_a.2) = False := by
          simp [hv]
        simp [hfind, this]

theorem intersect_loop_nil (a b : List (Int × Int)) (ha : unique_keys a) :
    intersect_loop a b [] = a.filter (fun p => decide (map_find b p.1 = some p.2)) := by
  rw [intersect_loop_eq b a [] ha (fun _ _ h => by cases h)]
  rfl

theorem unique_keys_filter {m : List (Int × Int)} (hm : unique_keys m)
    (p : Int × Int → Bool) : unique_keys (m.filter p) := by
  unfold unique_keys at hm ⊢
  exact hm.sublist ((List.filter_sublist m).map Prod.fst)

theorem map_find_filter {a b : List (Int × Int)} (ha : unique_keys a)
    (key value : Int) :
    map_find (a.filter (fun p => decide (map_find b p.1 = some p.2))) key = some value ↔
      map_find a key = some value ∧ map_find b key = some value := by
  rw [map_find_eq_some (unique_keys_filter ha _), map_find_eq_some ha, List.mem_filter]
  simp only [decide_eq_true_eq]

theorem _intersect_eq (a b : List (Int × Int)) :
    _intersect a b =
      if a.length > b.length then intersect_loop b a [] else intersect_loop a b [] := by
  by_cases h : a.length > b.length
  · rw [_intersect, if_pos h, if_pos h, _intersect, if_neg (by omega)]
  · rw [_intersect, if_neg h, if_neg h]

/-- C20: `_intersect` is a total function that swaps its arguments at most
once, running its loop over the smaller map; for two maps with pairwise
different keys its result maps `k` to `v` exactly when both `a` and `b` map
`k` to `v`; consequently `_intersect a b` and `_intersect b a` are the same
map, and `_intersect a a` is `a`. -/
theorem _intersect_spec (a b : List (Int × Int)) (ha : unique_keys a) (hb : unique_keys b) :
    (_intersect a b =
      if a.length > b.length then intersect_loop b a [] else intersect_loop a b []) ∧
    (∀ k v, map_find (_intersect a b) k = some v ↔
      map_find a k = some v ∧ map_find b k = some v) ∧
    (∀ k, map_find (_intersect a b) k = map_find (_intersect b a) k) ∧
    _intersect a a = a ∧
    unique_keys (_intersect a b) := by
  have hspec : ∀ x y : List (Int × Int), unique_keys x → unique_keys y →
      ∀ k v, map_find (_intersect x y) k = some v ↔
        map_find x k = some v ∧ map_find y k = some v := by
    intro x y hx hy k v
    rw [_intersect_eq]
    by_cases h : x.length > y.length
    · rw [if_pos h, intersect_loop_nil y x hy, map_find_filter hy]
      exact And.comm
    · rw [if_neg h, intersect_loop_nil x y hx, map_find_filter hx]
  refine ⟨_intersect_eq a b, hspec a b ha hb, ?_, ?_, ?_⟩
  · intro k
    cases h1 : map_find (_intersect a b) k with
    | some v =>
      have := (hspec a b ha hb k v).mp h1
      exact ((hspec b a hb ha k v).mpr ⟨this.2, this.1⟩).symm
    | none =>
      cases h2 : map_find (_intersect b a) k with
      | none => rfl
      | some v =>
        have := (hspec b a hb ha k v).mp h2
        rw [(hspec a b ha hb k v).mpr ⟨this.2, this.1⟩] at h1
        cases h1
  · rw [_intersect_eq, if_neg (by omega), intersect_loop_nil a a ha]
    apply List.filter_eq_self.mpr
    intro p hp
    rw [decide_eq_true_eq]
    exact (map_find_eq_some ha p.1 p.2).mpr hp
  · rw [_intersect_eq]
    by_cases h : a.length > b.length
    · rw [if_pos h, intersect_loop_nil b a hb]
      exact unique_keys_filter hb _
    · rw [if_neg h, intersect_loop_nil a b ha]
      exact unique_keys_filter ha _

/-- The maps `{1 ↦ 2, 3 ↦ 4, 5 ↦ 6, 9 ↦ 9}` and `{3 ↦ 4, 1 ↦ 5, 7 ↦ 7}`, the
first being the larger: the intersection maps 3 to 4. -/
theorem _intersect_spec_witness :
    map_find (_intersect [(1, 2), (3, 4), (5, 6), (9, 9)] [(3, 4), (1, 5), (7, 7)]) 3 = some 4 :=
  ((_intersect_spec [(1, 2), (3, 4), (5, 6), (9, 9)] [(3, 4), (1, 5), (7, 7)]
    (by decide) (by decide)).2.1 3 4).mpr ⟨by decide, by decide⟩

/-! ## The written document: lemmas -/

theorem digitChar_ne_newline (d : Nat) (hd : d < 10) : Nat.digitChar d ≠ '\n' := by
  interval_cases d <;> decide

theorem toDigitsCore_no_newline : ∀ (fuel n : Nat) (ds : List Char),
    '\n' ∉ ds → '\n' ∉ Nat.toDigitsCore 10 fuel n ds
  | 0, _, ds, h => by simpa [Nat.toDigitsCore] using h
  | fuel + 1, n, ds, h => by
    have hcons : '\n' ∉ Nat.digitChar (n % 10) :: ds := by
      intro hmem
      rcases List.mem_cons.mp hmem with h1 | h1
      · exact digitChar_ne_newline _ (Nat.mod_lt _ (by decide)) h1.symm
      · exact h h1
    unfold Nat.toDigitsCore
    simp only
    split
    · exact hcons
    · exact toDigitsCore_no_newline fuel _ _ hcons

theorem int_text_no_newline (n : Int) : '\n' ∉ int_text n := by
  unfold int_text
  cases n with
  | ofNat m =>
    show '\n' ∉ (Nat.repr m).toList
    exact toDigitsCore_no_newline _ _ _ (by simp)
  | negSucc m =>
    show '\n' ∉ ("-" ++ Nat.repr (m + 1)).toList
    have : ("-" ++ Nat.repr (m + 1)).toList = '-' :: Nat.toDigits 10 (m + 1) := rfl
    rw [this]
    intro hmem
    rcases List.mem_cons.mp hmem with h1 | h1
    · exact absurd h1 (by decide)
    · exact toDigitsCore_no_newline _ _ _ (by simp) h1

theorem join_names_cons (sep name : List Char) : ∀ (rest : List (List Char)),
    join_names sep (name :: rest) = name ++ (rest.map (fun x => sep ++ x)).flatten
  | [] => by simp [join_names]
  | r :: rs => by
    have ih := join_names_cons sep r rs
    unfold join_names
    rw [ih]
    simp [List.append_assoc]

theorem names_of_cons {catalog : Catalog} {f : FactPair} {name : List Char}
    (h : fact_name catalog f.var f.value = some name) (rest : List FactPair) :
    names_of catalog (f :: rest) = name :: names_of catalog rest := by
  unfold names_of
  rw [List.map_cons, h]
  rfl

theorem fact_name_of_real {catalog : Catalog} {f : FactPair}
    (h : is_real_fact catalog f = true) : ∃ name, fact_name catalog f.var f.value = some name := by
  unfold is_real_fact at h
  exact Option.isSome_iff_exists.mp h

theorem dump_facts_rest (catalog : Catalog) (landmark : Landmark) :
    ∀ (facts : List FactPair), (∀ f ∈ facts, is_real_fact catalog f = true) →
      dump_facts catalog landmark facts false =
        .ok ((names_of catalog facts).map (fun x => separator_of landmark ++ x)).flatten
  | [], _ => rfl
  | f :: rest, h => by
    obtain ⟨name, hname⟩ := fact_name_of_real (h f (List.mem_cons_self _ _))
    have ih := dump_facts_rest catalog landmark rest
      (fun x hx => h x (List.mem_cons_of_mem _ hx))
    unfold dump_facts
    rw [hname, ih, names_of_cons hname]
    simp only [bind, Except.bind, pure, Except.pure, Bool.not_false, if_true, List.map_cons,
      List.flatten_cons, List.append_assoc]
    rfl

theorem dump_facts_first (catalog : Catalog) (landmark : Landmark) (facts : List FactPair)
    (h : ∀ f ∈ facts, is_real_fact catalog f = true) :
    dump_facts catalog landmark facts true =
      .ok (join_names (separator_of landmark) (names_of catalog facts)) := by
  cases facts with
  | nil => rfl
  | cons f rest =>
    obtain ⟨name, hname⟩ := fact_name_of_real (h f (List.mem_cons_self _ _))
    unfold dump_facts
    rw [hname, dump_facts_rest catalog landmark rest
      (fun x hx => h x (List.mem_cons_of_mem _ hx)), names_of_cons hname, join_names_cons]
    simp only [bind, Except.bind, pure, Except.pure, Bool.not_true, Bool.false_eq_true,
      if_false, List.nil_append]

theorem dump_node_eq (catalog : Catalog) (in_initial_state : Landmark → Bool)
    (node : LandmarkNode)
    (h : ∀ f ∈ node.landmark.facts, is_real_fact catalog f = true) :
    dump_node catalog in_initial_state node =
      .ok (spec_node_line catalog in_initial_state node ++ ['\n']) := by
  unfold dump_node spec_node_line spec_flags
  rw [dump_facts_first catalog node.landmark _ h]
  simp only [bind, Except.bind, pure, Except.pure, List.append_assoc]
  rfl

theorem dump_edge_eq (src : Int) (child : Int × EdgeType) :
    dump_edge src child.1 child.2 = spec_edge_line src child ++ ['\n'] := by
  unfold dump_edge spec_edge_line edge_code
  cases child.2 <;> simp only [List.append_assoc] <;> rfl

theorem dump_children_eq (src : Int) : ∀ (children : List (Int × EdgeType)),
    dump_children src children =
      ((children.map (spec_edge_line src)).map (fun l => l ++ ['\n'])).flatten
  | [] => rfl
  | child :: rest => by
    unfold dump_children
    rw [dump_edge_eq, dump_children_eq src rest]
    simp

theorem dump_nodes_eq (catalog : Catalog) (in_initial_state : Landmark → Bool) :
    ∀ (nodes : List LandmarkNode),
      (∀ node ∈ nodes, ∀ f ∈ node.landmark.facts, is_real_fact catalog f = true) →
      dump_nodes catalog in_initial_state nodes =
        .ok (((nodes.map (fun node =>
          spec_node_line catalog in_initial_state node
            :: node.children.map (spec_edge_line node.id))).flatten).map
              (fun l => l ++ ['\n'])).flatten
  | [], _ => rfl
  | node :: rest, h => by
    unfold dump_nodes
    rw [dump_node_eq catalog in_initial_state node (h node (List.mem_cons_self _ _)),
      dump_nodes_eq catalog in_initial_state rest
        (fun n hn => h n (List.mem_cons_of_mem _ hn)), dump_children_eq]
    simp [bind, Except.bind, pure, Except.pure]

theorem split_lines_append : ∀ (l current rest : List Char), '\n' ∉ l →
    split_lines (l ++ '\n' :: rest) current = (current ++ l) :: split_lines rest []
  | [], current, rest, _ => by
    simp [split_lines]
  | c :: l, current, rest, h => by
    have hc : c ≠ '\n' := fun hc => h (by rw [hc]; exact List.mem_cons_self _ _)
    have hl : '\n' ∉ l := fun hl => h (List.mem_cons_of_mem _ hl)
    rw [List.cons_append, split_lines, if_neg hc,
      split_lines_append l (current ++ [c]) rest hl]
    simp

theorem lines_of_unlines : ∀ (ls : List (List Char)), (∀ l ∈ ls, '\n' ∉ l) →
    lines_of ((ls.map (fun l => l ++ ['\n'])).flatten) = ls
  | [], _ => rfl
  | l :: rest, h => by
    have ih := lines_of_unlines rest (fun x hx => h x (List.mem_cons_of_mem _ hx))
    unfold lines_of at ih ⊢
    rw [List.map_cons, List.flatten_cons, List.append_assoc, List.singleton_append,
      split_lines_append l [] _ (h l (List.mem_cons_self _ _)), ih]
    rfl

theorem join_names_no_newline (sep : List Char) (hsep : '\n' ∉ sep) :
    ∀ (names : List (List Char)), (∀ n ∈ names, '\n' ∉ n) → '\n' ∉ join_names sep names
  | [], _ => by simp [join_names]
  | name :: rest, h => by
    rw [join_names_cons]
    intro hmem
    rcases List.mem_append.mp hmem with h1 | h1
    · exact h name (List.mem_cons_self _ _) h1
    · obtain ⟨l, hl, hin⟩ := List.mem_flatten.mp h1
      obtain ⟨n, hn, rfl⟩ := List.mem_map.mp hl
      rcases List.mem_append.mp hin with h2 | h2
      · exact hsep h2
      · exact h n (List.mem_cons_of_mem _ hn) h2

theorem separator_of_no_newline (landmark : Landmark) : '\n' ∉ separator_of landmark := by
  unfold separator_of
  split
  · decide
  · split <;> decide

theorem spec_flags_no_newline (in_initial_state : Landmark → Bool) (landmark : Landmark) :
    '\n' ∉ spec_flags in_initial_state landmark := by
  unfold spec_flags
  cases in_initial_state landmark <;> cases landmark.is_true_in_goal <;> decide

theorem names_of_no_newline {catalog : Catalog} : ∀ (facts : List FactPair),
    (∀ f ∈ facts, ∀ name, fact_name catalog f.var f.value = some name → '\n' ∉ name) →
    ∀ n ∈ names_of catalog facts, '\n' ∉ n := by
  intro facts h n hn
  unfold names_of at hn
  obtain ⟨f, hf, rfl⟩ := List.mem_map.mp hn
  cases hname : fact_name catalog f.var f.value with
  | none => simp
  | some name => exact h f hf name hname

theorem spec_node_line_no_newline (catalog : Catalog) (in_initial_state : Landmark → Bool)
    (node : LandmarkNode)
    (h : ∀ f ∈ node.landmark.facts, ∀ name,
      fact_name catalog f.var f.value = some name → '\n' ∉ name) :
    '\n' ∉ spec_node_line catalog in_initial_state node := by
  unfold spec_node_line
  have h1 := int_text_no_newline node.id
  have h2 := join_names_no_newline _ (separator_of_no_newline node.landmark) _
    (names_of_no_newline node.landmark.facts h)
  have h3 := spec_flags_no_newline in_initial_state node.landmark
  have c1 : '\n' ∉ "  lm".toList := by decide
  have c2 : '\n' ∉ " [label=\"".toList := by decide
  have c3 : '\n' ∉ "\"".toList := by decide
  have c4 : '\n' ∉ "];".toList := by decide
  simp only [List.mem_append, not_or]
  exact ⟨⟨⟨⟨⟨⟨c1, h1⟩, c2⟩, h2⟩, c3⟩, h3⟩, c4⟩

theorem spec_edge_line_no_newline (parent : Int) (child : Int × EdgeType) :
    '\n' ∉ spec_edge_line parent child := by
  unfold spec_edge_line
  have h1 := int_text_no_newline parent
  have h2 := int_text_no_newline child.1
  have h3 : '\n' ∉ edge_code child.2 := by
    unfold edge_code
    cases child.2 <;> decide
  have c1 : '\n' ∉ "      lm".toList := by decide
  have c2 : '\n' ∉ " -> lm".toList := by decide
  have c3 : '\n' ∉ " [label=\"".toList := by decide
  have c4 : '\n' ∉ "\"];".toList := by decide
  simp only [List.mem_append, not_or]
  exact ⟨⟨⟨⟨⟨⟨c1, h1⟩, c2⟩, h2⟩, c3⟩, h3⟩, c4⟩

/-! ## The written document: the claims -/

/-- C12: for every node whose facts are facts of the catalog, `dump_node`
writes the node line `lm<id> [label="<names>"<flags>];` (indented by two
blanks) followed by a newline, and this is exactly one line when no name
holds a newline; `<names>` is the catalog name of each fact in order, joined
by `" | "` for a disjunctive landmark, by `" & "` for a conjunctive one, and
the single name for a landmark with one fact; `<flags>` ends with
`, style=filled` exactly when `is_true_in_goal` is set, any `, style=bold`
coming before it. -/
theorem dump_node_line (catalog : Catalog) (in_initial_state : Landmark → Bool)
    (node : LandmarkNode)
    (hreal : ∀ f ∈ node.landmark.facts, is_real_fact catalog f = true) :
    dump_node catalog in_initial_state node =
      .ok (spec_node_line catalog in_initial_state node ++ ['\n']) ∧
    ((∀ f ∈ node.landmark.facts, ∀ name,
        fact_name catalog f.var f.value = some name → '\n' ∉ name) →
      lines_of (spec_node_line catalog in_initial_state node ++ ['\n'])
        = [spec_node_line catalog in_initial_state node]) ∧
    (∀ f name, node.landmark.facts = [f] → fact_name catalog f.var f.value = some name →
      join_names (separator_of node.landmark) (names_of catalog node.landmark.facts) = name) ∧
    (node.landmark.disjunctive = true → separator_of node.landmark = " | ".toList) ∧
    (node.landmark.disjunctive = false → node.landmark.conjunctive = true →
      separator_of node.landmark = " & ".toList) ∧
    (spec_flags in_initial_state node.landmark =
      (if in_initial_state node.landmark then ", style=bold".toList else []) ++
      (if node.landmark.is_true_in_goal then ", style=filled".toList else [])) ∧
    (List.IsSuffix ", style=filled".toList (spec_flags in_initial_state node.landmark) ↔
      node.landmark.is_true_in_goal = true) := by
  refine ⟨dump_node_eq catalog in_initial_state node hreal, ?_, ?_, ?_, ?_, rfl, ?_⟩
  · intro hnl
    have h := lines_of_unlines [spec_node_line catalog in_initial_state node]
      (fun l hl => by
        rw [List.mem_singleton] at hl
        rw [hl]
        exact spec_node_line_no_newline catalog in_initial_state node hnl)
    simpa using h
  · intro f name hfacts hname
    rw [hfacts, names_of_cons hname]
    rfl
  · intro hd
    unfold separator_of
    rw [if_pos hd]
  · intro hd hc
    unfold separator_of
    rw [hd, if_neg (by decide), if_pos hc]
  · unfold spec_flags
    cases in_initial_state node.landmark <;> cases node.landmark.is_true_in_goal <;> decide

/-- The disjunctive goal landmark over `clear(a)` and `clear(b)`, not true
in the initial state. -/
theorem dump_node_line_witness :
    dump_node [["clear(a)".toList, "clear(b)".toList]] (fun _ => false)
        ⟨3, ⟨[⟨0, 0⟩, ⟨0, 1⟩], true, false, true⟩, []⟩
      = .ok "  lm3 [label=\"clear(a) | clear(b)\", style=filled];\n".toList :=
  (dump_node_line [["clear(a)".toList, "clear(b)".toList]] (fun _ => false)
    ⟨3, ⟨[⟨0, 0⟩, ⟨0, 1⟩], true, false, true⟩, []⟩ (by decide)).1

/-- C13: for every graph whose facts are facts of the catalog and have names
without newline, `dump_landmark_graph` writes a document whose lines are the
line `digraph G {`, then for every node its node line followed by one edge
line `lm<parentId> -> lm<childId> [label="<code>"];` for each entry of its
children, with the code `nec`, `gn`, `n` or `r` of the edge type, and last
the line `}`: one node line per node and one edge line per child entry. -/
theorem dump_landmark_graph_lines (catalog : Catalog) (in_initial_state : Landmark → Bool)
    (graph : LandmarkGraph)
    (hreal : ∀ node ∈ graph.nodes, ∀ f ∈ node.landmark.facts, is_real_fact catalog f = true)
    (hnl : ∀ node ∈ graph.nodes, ∀ f ∈ node.landmark.facts, ∀ name,
      fact_name catalog f.var f.value = some name → '\n' ∉ name) :
    ∃ document, dump_landmark_graph catalog in_initial_state graph = .ok document ∧
      lines_of document = spec_document_lines catalog in_initial_state graph ∧
      (lines_of document).head? = some "digraph G \x7b".toList ∧
      (lines_of document).getLast? = some "\x7d".toList ∧
      (lines_of document).length =
        2 + graph.nodes.length + (graph.nodes.map (fun n => n.children.length)).sum ∧
      edge_code .NECESSARY = "nec".toList ∧ edge_code .GREEDY_NECESSARY = "gn".toList ∧
      edge_code .NATURAL = "n".toList ∧ edge_code .REASONABLE = "r".toList := by
  have hdoc : dump_landmark_graph catalog in_initial_state graph =
      .ok (((spec_document_lines catalog in_initial_state graph).map
        (fun l => l ++ ['\n'])).flatten) := by
    unfold dump_landmark_graph spec_document_lines
    rw [dump_nodes_eq catalog in_initial_state graph.nodes hreal]
    simp [bind, Except.bind, pure, Except.pure]
  have hfree : ∀ l ∈ spec_document_lines catalog in_initial_state graph, '\n' ∉ l := by
    intro l hl
    unfold spec_document_lines at hl
    rcases List.mem_append.mp hl with h1 | h1
    · rcases List.mem_append.mp h1 with h2 | h2
      · rw [List.mem_singleton] at h2
        rw [h2]
        decide
      · obtain ⟨ls, hls, hin⟩ := List.mem_flatten.mp h2
        obtain ⟨node, hnode, rfl⟩ := List.mem_map.mp hls
        rcases List.mem_cons.mp hin with h3 | h3
        · rw [h3]
          exact spec_node_line_no_newline catalog in_initial_state node (hnl node hnode)
        · obtain ⟨child, _, rfl⟩ := List.mem_map.mp h3
          exact spec_edge_line_no_newline node.id child
    · rw [List.mem_singleton] at h1
      rw [h1]
      decide
  have hlines := lines_of_unlines _ hfree
  refine ⟨_, hdoc, hlines, ?_, ?_, ?_, rfl, rfl, rfl, rfl⟩
  · rw [hlines]
    rfl
  · rw [hlines]
    unfold spec_document_lines
    rw [List.getLast?_append]
    rfl
  · rw [hlines]
    unfold spec_document_lines
    simp only [List.length_append, List.length_singleton, List.length_flatten, List.map_map]
    have hsum : ∀ nodes : List LandmarkNode,
        (nodes.map (List.length ∘ fun node =>
          spec_node_line catalog in_initial_state node
            :: node.children.map (spec_edge_line node.id))).sum
          = nodes.length + (nodes.map (fun n => n.children.length)).sum := by
      intro nodes
      induction nodes with
      | nil => rfl
      | cons n rest ih =>
        simp only [List.map_cons, List.sum_cons, Function.comp, List.length_cons,
          List.length_map] at ih ⊢
        omega
    rw [hsum]
    omega

/-- A graph of two nodes with one edge from the first to the second. -/
theorem dump_landmark_graph_lines_witness :
    ∃ document,
      dump_landmark_graph [["clear(a)".toList, "clear(b)".toList]] (fun _ => false)
        ⟨[⟨0, ⟨[⟨0, 0⟩], false, false, false⟩, [(1, .GREEDY_NECESSARY)]⟩,
          ⟨1, ⟨[⟨0, 1⟩], false, false, true⟩, []⟩]⟩ = .ok document ∧
      lines_of document =
        ["digraph G \x7b".toList, "  lm0 [label=\"clear(a)\"];".toList,
          "      lm0 -> lm1 [label=\"gn\"];".toList,
          "  lm1 [label=\"clear(b)\", style=filled];".toList, "\x7d".toList] := by
  obtain ⟨document, hdoc, hlines, _⟩ :=
    dump_landmark_graph_lines [["clear(a)".toList, "clear(b)".toList]] (fun _ => false)
      ⟨[⟨0, ⟨[⟨0, 0⟩], false, false, false⟩, [(1, .GREEDY_NECESSARY)]⟩,
        ⟨1, ⟨[⟨0, 1⟩], false, false, true⟩, []⟩]⟩
      (by decide)
      (by
        intro node hnode f hf name hname
        simp only [List.mem_cons, List.mem_singleton, List.not_mem_nil, or_false] at hnode
        rcases hnode with rfl | rfl
        · simp only [List.mem_singleton] at hf
          subst hf
          cases hname
          decide
        · simp only [List.mem_singleton] at hf
          subst hf
          cases hname
          decide)
  exact ⟨document, hdoc, by rw [hlines]; rfl⟩

/-! ## Occurrences of a separator -/

theorem occurrences_from_bound (sub : List Char) : ∀ (s : List Char) (i x : Nat),
    x ∈ occurrences_from sub s i → i ≤ x ∧ x < i + s.length
  | [], _, _, h => by cases h
  | c :: s, i, x, h => by
    unfold occurrences_from at h
    simp only [List.length_cons]
    split at h
    · rcases List.mem_cons.mp h with h1 | h1
      · omega
      · have := occurrences_from_bound sub s (i + 1) x h1
        omega
    · have := occurrences_from_bound sub s (i + 1) x h
      omega

theorem find_at_eq_head (sub : List Char) (hsub : sub ≠ []) : ∀ (s : List Char) (i : Nat),
    find_at sub s i = (occurrences_from sub s i).headD npos
  | [], i => by
    unfold find_at occurrences_from
    have : sub.isEmpty = false := by
      cases sub with
      | nil => exact absurd rfl hsub
      | cons c cs => rfl
    rw [this]
    rfl
  | c :: s, i => by
    unfold find_at occurrences_from
    split
    · rfl
    · exact find_at_eq_head sub hsub s (i + 1)

theorem occurrences_from_split (sub : List Char) (hsub : sub ≠ []) :
    ∀ (s : List Char) (i q : Nat), find_at sub s i = q → q ≠ npos →
    occurrences_from sub s i = q :: occurrences_from sub (s.drop (q + 1 - i)) (q + 1)
  | [], i, q, h, hq => by
    unfold find_at at h
    have hemp : sub.isEmpty = false := by
      cases sub with
      | nil => exact absurd rfl hsub
      | cons c cs => rfl
    rw [hemp] at h
    exact absurd h.symm hq
  | c :: s, i, q, h, hq => by
    unfold find_at at h
    rw [occurrences_from]
    split at h
    · rename_i hst
      subst h
      rw [if_pos hst]
      have : i + 1 - i = 1 := by omega
      rw [this]
      rfl
    · rename_i hst
      rw [if_neg hst, occurrences_from_split sub hsub s (i + 1) q h hq]
      have hle : i + 1 ≤ q := by
        rcases find_at_bound sub s (i + 1) with hb | hb
        · rw [h] at hb
          exact absurd hb hq
        · rw [h] at hb
          exact hb.1
      have : q + 1 - i = (q + 1 - (i + 1)) + 1 := by omega
      rw [this, List.drop_succ_cons]

theorem get_positions_loop_eq (line sub : List Char) (hlen : line.length < npos)
    (hsub : sub ≠ []) :
    ∀ (rounds p : Nat), p ≤ line.length → line.length - p < rounds →
      get_positions_loop line sub rounds (str_find_from line sub p)
        = occurrences_from sub (line.drop p) p
  | 0, _, _, h => by omega
  | rounds + 1, p, hp, hrounds => by
    have hfind : str_find_from line sub p = find_at sub (line.drop p) p := by
      unfold str_find_from
      rw [if_neg (by omega)]
    unfold get_positions_loop
    by_cases hq : str_find_from line sub p = npos
    · rw [if_neg (fun h => h hq)]
      rw [hfind, find_at_eq_head sub hsub] at hq
      cases hocc : occurrences_from sub (line.drop p) p with
      | nil => rfl
      | cons x rest =>
        rw [hocc] at hq
        simp only [List.headD_cons] at hq
        have := occurrences_from_bound sub (line.drop p) p x (by rw [hocc]; exact List.mem_cons_self _ _)
        rw [List.length_drop] at this
        omega
    · rw [if_pos hq]
      have hsplit := occurrences_from_split sub hsub (line.drop p) p _ hfind.symm hq
      have hsublen : 1 ≤ sub.length := by
        cases sub with
        | nil => exact absurd rfl hsub
        | cons c cs => simp
      have hb : p ≤ str_find_from line sub p ∧
          str_find_from line sub p + sub.length ≤ line.length := by
        rcases str_find_from_bound line sub p with h | h
        · exact absurd h hq
        · exact h
      have hstep : sz_add (str_find_from line sub p) 1 = str_find_from line sub p + 1 := by
        unfold sz_add
        unfold npos at hlen
        exact Nat.mod_eq_of_lt (by omega)
      rw [hstep, get_positions_loop_eq line sub hlen hsub rounds _ (by omega) (by omega),
        hsplit, List.drop_drop]
      have : p + (str_find_from line sub p + 1 - p) = str_find_from line sub p + 1 := by omega
      rw [this]

/-- The positions `get_positions` collects are all the occurrences of `sub`
in the line. -/
theorem get_positions_eq_occurrences (line sub : List Char) (hlen : line.length < npos)
    (hsub : sub ≠ []) : get_positions line sub = occurrences_from sub line 0 := by
  unfold get_positions
  rw [get_positions_loop_eq line sub hlen hsub (line.length + 1) 0 (Nat.zero_le _) (by omega)]
  rfl

/-! ## Reading back: frame and classification -/

theorem insert_landmark_frame {graph graph1 : LandmarkGraph} {lm : Landmark}
    (h : insert_landmark graph lm = .ok graph1) :
    graph1 = graph ∨ graph1 = add_landmark graph lm := by
  unfold insert_landmark at h
  split at h
  · split at h
    · right; exact (Except.ok.inj h).symm
    · left; exact (Except.ok.inj h).symm
  · split at h
    · split at h
      · right; exact (Except.ok.inj h).symm
      · left; exact (Except.ok.inj h).symm
    · split at h
      · cases h
      · split at h
        · right; exact (Except.ok.inj h).symm
        · left; exact (Except.ok.inj h).symm

theorem read_node_frame {line : List Char} {catalog : Catalog} {graph : LandmarkGraph}
    {r : Landmark × LandmarkGraph} (h : read_node line catalog graph = .ok r) :
    r.2 = graph ∨ r.2 = add_landmark graph r.1 := by
  unfold read_node at h
  cases hlm : read_landmark line catalog with
  | error e => rw [hlm] at h; cases h
  | ok lm =>
    rw [hlm] at h
    simp only [bind, Except.bind] at h
    cases hins : insert_landmark graph lm with
    | error e => rw [hins] at h; cases h
    | ok graph1 =>
      rw [hins] at h
      cases h
      exact insert_landmark_frame hins

theorem read_edge_error {line : List Char} {e : Fault} (h : read_edge line = .error e) :
    e = .out_of_range := by
  unfold read_edge at h
  simp only [bind, Except.bind] at h
  split at h
  · cases h
    rename_i hs
    exact str_substr_error hs
  · split at h
    · cases h
      rename_i hs
      exact str_substr_error hs
    · split at h
      · cases h
        rename_i hs
        exact str_substr_error hs
      · split at h
        · cases h
        · split at h
          · cases h
          · split at h <;> cases h

theorem read_line_edge {catalog : Catalog} {line : List Char} (graph : LandmarkGraph)
    (harrow : str_find line "->".toList ≠ npos) :
    read_line catalog line graph = .error .out_of_range ∨
      read_line catalog line graph = .ok graph := by
  unfold read_line
  rw [if_neg harrow]
  cases hedge : read_edge line with
  | error e =>
    left
    rw [read_edge_error hedge]
  | ok edge => right; rfl

theorem read_line_frame {catalog : Catalog} {line : List Char} {graph graph1 : LandmarkGraph}
    (h : read_line catalog line graph = .ok graph1) :
    ∃ added, graph1.nodes = graph.nodes ++ added ∧ ∀ n ∈ added, n.children = [] := by
  unfold read_line at h
  split at h
  · cases hnode : read_node line catalog graph with
    | error e => rw [hnode] at h; cases h
    | ok r =>
      rw [hnode] at h
      cases h
      rcases read_node_frame hnode with h1 | h1
      · exact ⟨[], by rw [h1]; simp, fun n hn => by cases hn⟩
      · refine ⟨[⟨(graph.nodes.length : Int), r.1, []⟩], by rw [h1]; rfl, ?_⟩
        intro n hn
        rw [List.mem_singleton] at hn
        rw [hn]
  · cases hedge : read_edge line with
    | error e => rw [hedge] at h; cases h
    | ok edge =>
      rw [hedge] at h
      cases h
      exact ⟨[], by simp, fun n hn => by cases hn⟩

theorem read_lines_frame (catalog : Catalog) :
    ∀ (rounds : Nat) (input : InputStream) (line : List Char) (graph : LandmarkGraph)
      (out : InputStream × LandmarkGraph),
      read_lines catalog rounds input line graph = .ok out →
      ∃ added, out.2.nodes = graph.nodes ++ added ∧ ∀ n ∈ added, n.children = []
  | 0, _, _, graph, out, h => by
    cases h
    exact ⟨[], by simp, fun n hn => by cases hn⟩
  | rounds + 1, input, line, graph, out, h => by
    unfold read_lines at h
    split at h
    · cases hline : read_line catalog line graph with
      | error e => rw [hline] at h; cases h
      | ok graph1 =>
        rw [hline] at h
        obtain ⟨added1, hn1, hc1⟩ := read_line_frame hline
        obtain ⟨added2, hn2, hc2⟩ := read_lines_frame catalog rounds _ _ graph1 out h
        refine ⟨added1 ++ added2, by rw [hn2, hn1, List.append_assoc], ?_⟩
        intro n hn
        rcases List.mem_append.mp hn with h1 | h1
        · exact hc1 n h1
        · exact hc2 n h1
    · cases h
      exact ⟨[], by simp, fun n hn => by cases hn⟩

/-- C14: whenever `read_landmark_graph` returns, the graph passed by
reference holds its former nodes unchanged, children included, followed by
the nodes added, each without children, and the graph returned has no node
and so no edge; a line containing `->` either makes `substr` throw or
leaves the graph entirely unchanged. -/
theorem read_landmark_graph_no_edges (catalog : Catalog) (input : InputStream)
    (graph : LandmarkGraph) :
    (∀ out, read_landmark_graph catalog input graph = .ok out →
      (∃ added, out.graph.nodes = graph.nodes ++ added ∧ ∀ n ∈ added, n.children = []) ∧
      out.returned.nodes = []) ∧
    (∀ line, str_find line "->".toList ≠ npos →
      read_line catalog line graph = .error .out_of_range ∨
      read_line catalog line graph = .ok graph) := by
  constructor
  · intro out h
    unfold read_landmark_graph at h
    cases hopen : input.is_open with
    | false =>
      rw [hopen] at h
      simp only [Bool.false_eq_true, if_false, pure, Except.pure] at h
      cases h
      exact ⟨⟨[], by simp, fun n hn => by cases hn⟩, rfl⟩
    | true =>
      rw [hopen] at h
      simp only [if_true, bind, Except.bind, pure, Except.pure] at h
      split at h
      · cases h
      · rename_i r hr
        cases h
        exact ⟨read_lines_frame catalog _ _ _ graph r hr, rfl⟩
  · intro line harrow
    exact read_line_edge graph harrow

/-- The edge line `lm0 -> lm1 [label="gn"];` read into a graph of two nodes
without children: the graph stays as it is. -/
theorem read_landmark_graph_no_edges_witness :
    read_line [["clear(a)".toList, "clear(b)".toList]]
        "      lm0 -> lm1 [label=\"gn\"];".toList
        ⟨[⟨0, ⟨[⟨0, 0⟩], false, false, false⟩, []⟩, ⟨1, ⟨[⟨0, 1⟩], false, false, true⟩, []⟩]⟩
      = .ok ⟨[⟨0, ⟨[⟨0, 0⟩], false, false, false⟩, []⟩,
          ⟨1, ⟨[⟨0, 1⟩], false, false, true⟩, []⟩]⟩ :=
  ((read_landmark_graph_no_edges [["clear(a)".toList, "clear(b)".toList]] (open_stream [])
    ⟨[⟨0, ⟨[⟨0, 0⟩], false, false, false⟩, []⟩, ⟨1, ⟨[⟨0, 1⟩], false, false, true⟩, []⟩]⟩).2
    "      lm0 -> lm1 [label=\"gn\"];".toList (by decide)).resolve_left (by decide)

theorem read_tokens_length {line : List Char} {catalog : Catalog} {positions : List Nat} :
    ∀ (rounds : List Nat) (facts out : List FactPair),
      read_tokens line catalog positions rounds facts = .ok out →
      out.length = facts.length + rounds.length
  | [], facts, out, h => by
    cases h
    rfl
  | pos :: rest, facts, out, h => by
    unfold read_tokens at h
    cases htok : token_at line positions pos with
    | error e => rw [htok] at h; cases h
    | ok name =>
      rw [htok] at h
      simp only [bind, Except.bind] at h
      cases hff : find_facts catalog name with
      | error e => rw [hff] at h; cases h
      | ok ij =>
        rw [hff] at h
        obtain ⟨f, hf⟩ := push_fact_ok facts hff
        simp only at h
        rw [hf] at h
        have := read_tokens_length rest _ out h
        rw [List.length_append, List.length_singleton] at this
        rw [List.length_cons]
        omega

/-- C15, evaluated on the code: `dump_node` writes the disjunctive goal
landmark over `clear(a)` and `clear(b)` as
`lm0 [label="clear(a) | clear(b)", style=filled];`; from this line `read_node`
cuts the tokens `clear(a)` and `clear(b)", style=fille`, the last one with the
closing quote and style text, and builds the facts `(0, 0)` and the sentinel
`(2, -1)`; without the flag the last token is `clear(b)`. -/
theorem read_node_last_token_with_flags :
    (dump_node [["clear(a)".toList, "clear(b)".toList]] (fun _ => false)
        ⟨0, ⟨[⟨0, 0⟩, ⟨0, 1⟩], true, false, true⟩, []⟩).map (fun text => (cut_line text).1)
      = .ok "  lm0 [label=\"clear(a) | clear(b)\", style=filled];".toList ∧
    token_at "  lm0 [label=\"clear(a) | clear(b)\", style=filled];".toList
        (get_positions "  lm0 [label=\"clear(a) | clear(b)\", style=filled];".toList
          " | ".toList) 0 = .ok "clear(a)".toList ∧
    token_at "  lm0 [label=\"clear(a) | clear(b)\", style=filled];".toList
        (get_positions "  lm0 [label=\"clear(a) | clear(b)\", style=filled];".toList
          " | ".toList) 1 = .ok "clear(b)\", style=fille".toList ∧
    (read_landmark "  lm0 [label=\"clear(a) | clear(b)\", style=filled];".toList
        [["clear(a)".toList, "clear(b)".toList]]).map (fun lm => lm.facts)
      = .ok [⟨0, 0⟩, ⟨2, -1⟩] ∧
    token_at "  lm0 [label=\"clear(a) | clear(b)\"];".toList
        (get_positions "  lm0 [label=\"clear(a) | clear(b)\"];".toList " | ".toList) 1
      = .ok "clear(b)".toList ∧
    (read_landmark "  lm0 [label=\"clear(a) | clear(b)\"];".toList
        [["clear(a)".toList, "clear(b)".toList]]).map (fun lm => lm.facts)
      = .ok [⟨0, 0⟩, ⟨0, 1⟩] := by
  refine ⟨rfl, rfl, rfl, rfl, rfl, rfl⟩

/-- C16, the claim fails as stated: the node line with the label
`a(x, y) | b(x, y) & c(x, y)` holds both separators, and the landmark
`read_node` builds from it is flagged disjunctive and conjunctive at once. -/
theorem read_node_both_flags_counterexample :
    (read_landmark "  lm0 [label=\"a(x, y) | b(x, y) & c(x, y)\"];".toList
        [["a(x, y)".toList]]).map (fun lm => (lm.disjunctive, lm.conjunctive))
      = .ok (true, true) := by
  rfl

/-- C16, amended: for every node line (shorter than `2 ^ 64 - 1` characters)
from which `read_node` builds a landmark, the landmark is flagged disjunctive
exactly when the line contains `" | "` and conjunctive exactly when it
contains `" & "`, so it is never flagged both unless the line contains both
separators; with neither separator it is SIMPLE with exactly one fact; with
`" | "` it holds one fact more than the line has occurrences of `" | "`, and
with `" & "` alone one fact more than the line has occurrences of `" & "`. -/
theorem read_landmark_classification (line : List Char) (catalog : Catalog) (lm : Landmark)
    (hlen : line.length < npos) (h : read_landmark line catalog = .ok lm) :
    (lm.disjunctive = true ↔ str_find line " | ".toList ≠ npos) ∧
    (lm.conjunctive = true ↔ str_find line " & ".toList ≠ npos) ∧
    ((str_find line " | ".toList = npos ∨ str_find line " & ".toList = npos) →
      (lm.disjunctive && lm.conjunctive) = false) ∧
    (str_find line " | ".toList = npos → str_find line " & ".toList = npos →
      is_simple lm = true ∧ ∃ f, lm.facts = [f]) ∧
    (str_find line " | ".toList ≠ npos →
      lm.facts.length = count_occurrences line " | ".toList + 1) ∧
    (str_find line " | ".toList = npos → str_find line " & ".toList ≠ npos →
      lm.facts.length = count_occurrences line " & ".toList + 1) := by
  obtain ⟨hfacts, hdis, hcon, _⟩ := read_landmark_ok h
  have hd : lm.disjunctive = true ↔ str_find line " | ".toList ≠ npos := by
    rw [hdis, decide_eq_true_eq]
  have hc : lm.conjunctive = true ↔ str_find line " & ".toList ≠ npos := by
    rw [hcon, decide_eq_true_eq]
  refine ⟨hd, hc, ?_, ?_, ?_, ?_⟩
  · rintro (h1 | h1)
    · rw [hdis, decide_ne_of_eq h1]
      rfl
    · rw [hcon, decide_ne_of_eq h1]
      exact Bool.and_false _
  · intro h1 h2
    have hdf : lm.disjunctive = false := by rw [hdis, decide_ne_of_eq h1]
    have hcf : lm.conjunctive = false := by rw [hcon, decide_ne_of_eq h2]
    refine ⟨?_, read_landmark_facts_ne_nil h ⟨hdf, hcf⟩⟩
    unfold is_simple
    rw [hdf, hcf]
    rfl
  · intro h1
    rw [read_facts_disjunctive catalog h1] at hfacts
    have := read_tokens_length _ _ _ hfacts
    rw [List.length_range, List.length_nil,
      get_positions_eq_occurrences line _ hlen (by decide)] at this
    unfold count_occurrences
    omega
  · intro h1 h2
    rw [read_facts_conjunctive catalog h1 h2] at hfacts
    have := read_tokens_length _ _ _ hfacts
    rw [List.length_range, List.length_nil,
      get_positions_eq_occurrences line _ hlen (by decide)] at this
    unfold count_occurrences
    omega

/-- The line with the label `on(a, b) | on(a, c) | on(a, b)`: two occurrences
of the separator, three facts. -/
theorem read_landmark_classification_witness :
    count_occurrences "  lm0 [label=\"on(a, b) | on(a, c) | on(a, b)\"];".toList " | ".toList = 2 ∧
    ([⟨0, 0⟩, ⟨0, 1⟩, ⟨0, 0⟩] : List FactPair).length
      = count_occurrences "  lm0 [label=\"on(a, b) | on(a, c) | on(a, b)\"];".toList
          " | ".toList + 1 :=
  ⟨by decide,
   (read_landmark_classification "  lm0 [label=\"on(a, b) | on(a, c) | on(a, b)\"];".toList
      [["on(a, b)".toList, "on(a, c)".toList]] ⟨[⟨0, 0⟩, ⟨0, 1⟩, ⟨0, 0⟩], true, false, false⟩
      (by decide) rfl).2.2.2.2.1 (by decide)⟩

/-! ## Labels of 2-argument names -/

theorem read_tokens_of_tokens {line : List Char} {catalog : Catalog} {positions : List Nat} :
    ∀ (rounds : List Nat) (facts : List FactPair) (names : List (List Char))
      (pairs : List (Nat × Nat)),
      name_tokens line positions rounds = .ok names →
      names.length = pairs.length →
      (∀ x ∈ names.zip pairs, find_facts catalog x.1 = .ok ((x.2.1 : Int), (x.2.2 : Int))) →
      read_tokens line catalog positions rounds facts
        = .ok (facts ++ pairs.map (fun p => ⟨(p.1 : Int), (p.2 : Int)⟩))
  | [], facts, names, pairs, htok, hlen, _ => by
    cases htok
    cases pairs with
    | nil => simp [read_tokens, pure, Except.pure]
    | cons p ps => simp at hlen
  | pos :: rest, facts, names, pairs, htok, hlen, hfind => by
    unfold name_tokens at htok
    cases ht : token_at line positions pos with
    | error e => rw [ht] at htok; cases htok
    | ok name =>
      rw [ht] at htok
      simp only at htok
      cases hrest : name_tokens line positions rest with
      | error e => rw [hrest] at htok; cases htok
      | ok names1 =>
        rw [hrest] at htok
        cases htok
        cases pairs with
        | nil => simp at hlen
        | cons p ps =>
          have hp := hfind (name, p) (by simp)
          have hlen1 : names1.length = ps.length := by simpa using hlen
          have ih := read_tokens_of_tokens rest (facts ++ [⟨(p.1 : Int), (p.2 : Int)⟩])
            names1 ps hrest hlen1
            (fun x hx => hfind x (by
              rw [List.zip_cons_cons]
              exact List.mem_cons_of_mem _ hx))
          unfold read_tokens
          rw [ht]
          simp only [bind, Except.bind]
          rw [hp]
          have hpush : push_fact catalog facts (p.1 : Int) (p.2 : Int)
              = .ok (facts ++ [⟨(p.1 : Int), (p.2 : Int)⟩]) := by
            unfold push_fact
            rw [if_pos ⟨Int.ofNat_nonneg _, Int.ofNat_nonneg _⟩]
          simp only
          rw [hpush]
          simp only
          rw [ih, List.append_assoc]
          rfl

theorem read_landmark_of_facts {line : List Char} {catalog : Catalog} {facts : List FactPair}
    (hfacts : read_facts line catalog = .ok facts) (hline : 1 ≤ line.length) :
    read_landmark line catalog = .ok
      { facts := facts
        disjunctive := decide (str_find line " | ".toList ≠ npos)
        conjunctive := decide (str_find line " & ".toList ≠ npos)
        is_true_in_goal := decide (str_find line "style=filled".toList ≠ npos) } := by
  unfold read_landmark
  rw [hfacts]
  simp only [bind, Except.bind]
  rw [str_substr_ok _ _ _ (sz_add_find_le line _ 2 (by decide) (fun _ => by
    have : (npos + 2) % 18446744073709551616 = 1 := by decide
    rw [this]
    exact hline))]
  rfl

/-- C6, amended: in a catalog without empty names, a 2-argument name that the
catalog renders for `(v, d)` is resolved by `find_facts` to exactly `(v, d)`
if every catalog name with the same text between `(` and `, ` belongs to
variable `v` and every catalog name with the same text between `, ` and `)`
has value id `d`; and a line with `" | "` whose name tokens, as `read_node`
cuts them, are such names parses to a disjunctive landmark holding, in
order, exactly the facts the tokens were rendered from. -/
theorem find_facts_two_arguments (catalog : Catalog)
    (hne : ∀ e ∈ entries catalog, e.2.2 ≠ []) :
    (∀ (name : List Char) (v d : Nat),
      str_find name ", ".toList ≠ npos →
      (v, d, name) ∈ entries catalog →
      (∀ e ∈ entries catalog, first_of_two e.2.2 = first_of_two name → e.1 = v) →
      (∀ e ∈ entries catalog, second_of_two e.2.2 = second_of_two name → e.2.1 = d) →
      find_facts catalog name = .ok ((v : Int), (d : Int))) ∧
    (∀ (line : List Char) (names : List (List Char)) (pairs : List (Nat × Nat)),
      str_find line " | ".toList ≠ npos →
      name_tokens line (get_positions line " | ".toList)
        (List.range ((get_positions line " | ".toList).length + 1)) = .ok names →
      names.length = pairs.length →
      (∀ x ∈ names.zip pairs,
        str_find x.1 ", ".toList ≠ npos ∧
        (x.2.1, x.2.2, x.1) ∈ entries catalog ∧
        (∀ e ∈ entries catalog, first_of_two e.2.2 = first_of_two x.1 → e.1 = x.2.1) ∧
        (∀ e ∈ entries catalog, second_of_two e.2.2 = second_of_two x.1 → e.2.1 = x.2.2)) →
      ∃ lm, read_landmark line catalog = .ok lm ∧ lm.disjunctive = true ∧
        lm.facts = pairs.map (fun p => ⟨(p.1 : Int), (p.2 : Int)⟩)) := by
  constructor
  · intro name v d htwo hname hvar hval
    exact find_facts_of_unique_arguments catalog name v d htwo hname hne hvar hval
  · intro line names pairs hd htok hlen hcond
    have hfacts : read_facts line catalog
        = .ok (pairs.map (fun p => ⟨(p.1 : Int), (p.2 : Int)⟩)) := by
      rw [read_facts_disjunctive catalog hd,
        read_tokens_of_tokens _ [] names pairs htok hlen (fun x hx => by
          obtain ⟨h1, h2, h3, h4⟩ := hcond x hx
          exact find_facts_of_unique_arguments catalog x.1 x.2.1 x.2.2 h1 h2 hne h3 h4)]
      rfl
    have hline : 1 ≤ line.length := by
      rcases str_find_bound line " | ".toList with h | h
      · exact absurd h hd
      · have : (" | ".toList).length = 3 := rfl
        omega
    refine ⟨_, read_landmark_of_facts hfacts hline, ?_, rfl⟩
    exact decide_ne_of_ne hd

/-- The name `on(a, c)` and the label `on(a, b) | on(a, c)` in a catalog where
`a` is the first argument of variable 0 only and `b`, `c` the second
arguments of its values 0 and 1 only: the name resolves to `(0, 1)` and the
label parses to the facts `(0, 0)` and `(0, 1)` of the one variable. -/
theorem find_facts_two_arguments_witness :
    find_facts [["on(a, b)".toList, "on(a, c)".toList], ["on(b, a)".toList, "on(b, d)".toList]]
      "on(a, c)".toList = .ok (0, 1) ∧
    ∃ lm, read_landmark "  lm0 [label=\"on(a, b) | on(a, c)\"];".toList
        [["on(a, b)".toList, "on(a, c)".toList], ["on(b, a)".toList, "on(b, d)".toList]]
        = .ok lm ∧ lm.disjunctive = true ∧ lm.facts = [⟨0, 0⟩, ⟨0, 1⟩] :=
  ⟨(find_facts_two_arguments
      [["on(a, b)".toList, "on(a, c)".toList], ["on(b, a)".toList, "on(b, d)".toList]]
      (by decide)).1 "on(a, c)".toList 0 1 (by decide) (by decide) (by decide) (by decide),
   (find_facts_two_arguments
      [["on(a, b)".toList, "on(a, c)".toList], ["on(b, a)".toList, "on(b, d)".toList]]
      (by decide)).2 "  lm0 [label=\"on(a, b) | on(a, c)\"];".toList
      ["on(a, b)".toList, "on(a, c)".toList] [(0, 0), (0, 1)]
      (by decide) rfl rfl (by decide)⟩

end landmarks
